import Mathlib

/-!
Verification model of the CION network node core (github.com/fancl20/cion).

The development shallowly embeds the Go sources:
  * `pkg/dataplane/router.go`  — the SCION packet forwarder,
  * `pkg/pki/trcs.go`          — the TRC state machine and base-TRC generation,
  * `pkg/pki/certificates.go`  — certificate generation and the bundle,
  * `pkg/trust/impl/bbolt/db.go` — the persistent trust store.

Machine integers are modelled as `Nat` with explicit `% 2^w` where Go
overflow semantics matter.  Byte strings are `List Nat`.  Instants are `Int`
nanoseconds (Go `time.Time`), with `0` standing for Go's zero time.
External libraries (scionproto slayers path codec, encoding/asn1, x509,
crypto hashes) are modelled at their interface granularity: the path codec
is reproduced bit-for-bit from the SCION path wire format, hashes and key
material are opaque parameters, and DER-encoded payloads are represented by
the structures they encode (DER encoding being injective).
-/

namespace Cion

/-! ## Byte-string utilities -/

/-- The byte at index `i` of a byte string (0 when out of range). -/
def byteAt (b : List Nat) (i : Nat) : Nat := b.getD i 0

/-- Big-endian encoding of the low `w` bytes of `n`
(`binary.BigEndian.PutUint64` is `beBytes 8`, `PutUint32` is `beBytes 4`,
`PutUint16` is `beBytes 2`). -/
def beBytes : Nat → Nat → List Nat
  | 0, _ => []
  | w + 1, n => (n >>> (8 * w)) % 256 :: beBytes w n

/-- Strict lexicographic byte-string order, as used by `bytes.Compare` and
hence by the bbolt B-tree key order. -/
def bytesLt : List Nat → List Nat → Bool
  | [], [] => false
  | [], _ :: _ => true
  | _ :: _, [] => false
  | a :: as1, b :: bs => if a < b then true else if b < a then false else bytesLt as1 bs

/-! ## Association lists (model of bbolt buckets: key-ordered maps) -/

/-- Bucket lookup (`bbolt.Bucket.Get`): `none` models a `nil` result. -/
def lookupA {K V : Type} [DecidableEq K] : List (K × V) → K → Option V
  | [], _ => none
  | (k', v) :: rest, k => if k' = k then some v else lookupA rest k

/-- Bucket store (`bbolt.Bucket.Put`): replaces the value under an existing
key, otherwise adds the pair. -/
def putA {K V : Type} [DecidableEq K] : List (K × V) → K → V → List (K × V)
  | [], k, v => [(k, v)]
  | (k', v') :: rest, k, v =>
    if k' = k then (k, v) :: rest else (k', v') :: putA rest k v

/-- `bbolt.Cursor.Last`: the entry whose key is lexicographically largest
(a bbolt bucket iterates keys in `bytes.Compare` order). -/
def lastEntry {V : Type} (l : List (List Nat × V)) : Option (List Nat × V) :=
  l.foldl
    (fun acc kv =>
      match acc with
      | none => some kv
      | some best => if bytesLt best.1 kv.1 then some kv else some best)
    none

/-! ## Addresses (`scionproto/pkg/addr`) -/

/-- An ISD-AS pair.  `isd` is the 16-bit isolation-domain number and `as2`
the 48-bit AS number (named `as2` because `as` would shadow syntax). -/
structure IA where
  isd : Nat
  as2 : Nat
deriving DecidableEq, Repr

/-- `addr.IA.IsZero`. -/
def IA.isZero (ia : IA) : Bool := ia.isd == 0 && ia.as2 == 0

/-- Lower-case hexadecimal rendering of a `Nat` (Go `%x`). -/
def hexStr (n : Nat) : String := String.mk (Nat.toDigits 16 n)

/-- `addr.AS.String`: decimal for BGP-compatible AS numbers (≤ 2^32 - 1),
otherwise three colon-separated 16-bit hexadecimal groups; values outside
the 48-bit range render with an illegal-value marker. -/
def fmtAS (a : Nat) : String :=
  if a ≥ 2 ^ 48 then toString a ++ " [Illegal AS value]"
  else if a ≤ 2 ^ 32 - 1 then toString a
  else hexStr ((a >>> 32) % 65536) ++ ":" ++ hexStr ((a >>> 16) % 65536) ++ ":"
    ++ hexStr (a % 65536)

/-- `addr.IA.String`: `"<ISD>-<AS>"`. -/
def iaString (ia : IA) : String := toString ia.isd ++ "-" ++ fmtAS ia.as2

/-! ## Time and validity

An instant is `Int` nanoseconds, `0` standing for Go's zero `time.Time`. -/

/-- `cppki.Validity`. -/
structure Validity where
  notBefore : Int
  notAfter : Int
deriving DecidableEq, Repr

/-- `t.UTC().Truncate(time.Second)`: round down to a whole second. -/
def truncSec (t : Int) : Int := (t / 1000000000) * 1000000000

/-- Validity truncated to whole seconds, as in `GenerateBaseTRC`. -/
def truncValidity (v : Validity) : Validity :=
  ⟨truncSec v.notBefore, truncSec v.notAfter⟩

/-! ## Certificates (`pkg/pki/certificates.go`)

X.509 certificates are modelled by the fields the CION code reads or
writes.  Key pairs, serial numbers and subject-key identifiers come from
`crypto/rand`; they enter the model as explicit `KeyMat` inputs.  The
`sigKey` field records which private key signed the certificate
(`x509.CreateCertificate`'s signer). -/

/-- An ASN.1 object identifier. -/
abbrev OID := List Nat

/-- `cppki.OIDNameIA` (the ISD-AS distinguished-name attribute). -/
def oidNameIA : OID := [1, 3, 112, 4, 2]

/-- `cppki.OIDExtKeyUsageSensitive`. -/
def oidExtKeyUsageSensitive : OID := [1, 3, 112, 4, 107]

/-- `cppki.OIDExtKeyUsageRegular`. -/
def oidExtKeyUsageRegular : OID := [1, 3, 112, 4, 106]

/-- `cppki.OIDExtKeyUsageRoot`. -/
def oidExtKeyUsageRoot : OID := [1, 3, 112, 4, 110]

/-- Go `x509.KeyUsageDigitalSignature`. -/
def keyUsageDigitalSignature : Nat := 1

/-- Go `x509.KeyUsageKeyEncipherment`. -/
def keyUsageKeyEncipherment : Nat := 4

/-- Go `x509.KeyUsageCertSign`. -/
def keyUsageCertSign : Nat := 32

/-- Go `x509.ExtKeyUsage` values used by the generators. -/
inductive XKU where
  | serverAuth
  | clientAuth
  | timeStamping
deriving DecidableEq, Repr

/-- The modelled fields of an `x509.Certificate`. -/
structure Cert where
  serialNumber : Nat
  subjectCN : String
  subjectIA : IA
  issuerCN : String
  issuerIA : IA
  notBefore : Int
  notAfter : Int
  keyUsage : Nat
  extKeyUsage : List XKU
  unknownExtKeyUsage : List OID
  basicConstraintsValid : Bool
  isCA : Bool
  maxPathLen : Nat
  maxPathLenZero : Bool
  version : Nat
  pubKey : Nat
  subjectKeyId : List Nat
  sigKey : Nat
deriving DecidableEq, Repr

/-- Fresh key material: an opaque private key, its public key, the
`cppki.SubjectKeyID` derived from the public key, and a random serial. -/
structure KeyMat where
  priv : Nat
  pub : Nat
  skid : List Nat
  serial : Nat
deriving DecidableEq, Repr

/-- `generateRootCert`: self-signed CA certificate with `MaxPathLen = 1`,
key usage `CertSign` only, and the SCION root extended-key-usage OID. -/
def generateRootCert (ia : IA) (cn : String) (v : Validity) (km : KeyMat) :
    Cert × Nat :=
  (⟨km.serial, cn, ia, cn, ia, v.notBefore, v.notAfter, keyUsageCertSign, [],
     [oidExtKeyUsageRoot], true, true, 1, false, 3, km.pub, km.skid, km.priv⟩,
   km.priv)

/-- `generateVotingCert`: self-signed non-CA certificate with zero key
usage, `TimeStamping` extended key usage, and the given voting OID. -/
def generateVotingCert (ia : IA) (cn : String) (votingOID : OID) (v : Validity)
    (km : KeyMat) : Cert × Nat :=
  (⟨km.serial, cn, ia, cn, ia, v.notBefore, v.notAfter, 0, [XKU.timeStamping],
     [votingOID], false, false, 0, false, 3, km.pub, km.skid, km.priv⟩,
   km.priv)

/-- `generateASCert`: non-CA leaf certificate for server/client
authentication; signed by `issuer` when given, otherwise self-signed. -/
def generateASCert (ia : IA) (cn : String) (v : Validity)
    (issuer : Option (Cert × Nat)) (km : KeyMat) : Cert × Nat :=
  let issuerCN := match issuer with
    | some (c, _) => c.subjectCN
    | none => cn
  let issuerIA := match issuer with
    | some (c, _) => c.subjectIA
    | none => ia
  let signer := match issuer with
    | some (_, k) => k
    | none => km.priv
  (⟨km.serial, cn, ia, issuerCN, issuerIA, v.notBefore, v.notAfter,
     keyUsageDigitalSignature + keyUsageKeyEncipherment,
     [XKU.serverAuth, XKU.clientAuth], [], true, false, 0, false, 3, km.pub,
     km.skid, signer⟩,
   km.priv)

/-- `pki.CertType`. -/
inductive CertType where
  | unknown
  | regular
  | sensitive
  | root
  | leaf
deriving DecidableEq, Repr

/-- `pki.ASType`. -/
inductive ASType where
  | core
  | authoritative
  | normal
deriving DecidableEq, Repr

/-- `pki.Certificates`: at most one certificate and private key per kind
(`CertType.leaf` stands for the Go `CertTypeAS`). -/
structure Certificates where
  certs : CertType → Option Cert
  keys : CertType → Option Nat

/-- `pki.NewCertificates`. -/
def newCertificates : Certificates := ⟨fun _ => none, fun _ => none⟩

/-- Store a certificate and its key under a kind (Go map assignment). -/
def Certificates.store (c : Certificates) (t : CertType) (cert : Cert)
    (key : Nat) : Certificates :=
  ⟨fun t' => if t' = t then some cert else c.certs t',
   fun t' => if t' = t then some key else c.keys t'⟩

/-- `Certificates.generateCert` for the Root/Sensitive/Regular kinds. -/
def Certificates.generateCert (c : Certificates) (ia : IA) (t : CertType)
    (v : Validity) (km : KeyMat) : Except String Certificates :=
  match t with
  | CertType.root =>
    let (cert, key) := generateRootCert ia
      ("ISD" ++ toString ia.isd ++ "-AS" ++ fmtAS ia.as2 ++ " Root") v km
    Except.ok (c.store CertType.root cert key)
  | CertType.sensitive =>
    let (cert, key) := generateVotingCert ia
      ("ISD" ++ toString ia.isd ++ "-AS" ++ fmtAS ia.as2 ++ " Sensitive Voting")
      oidExtKeyUsageSensitive v km
    Except.ok (c.store CertType.sensitive cert key)
  | CertType.regular =>
    let (cert, key) := generateVotingCert ia
      ("ISD" ++ toString ia.isd ++ "-AS" ++ fmtAS ia.as2 ++ " Regular Voting")
      oidExtKeyUsageRegular v km
    Except.ok (c.store CertType.regular cert key)
  | _ => Except.error "invalid cert type"

/-- `Certificates.generateASCert`: leaf certificate signed by the stored
Root (which must exist). -/
def Certificates.generateASCertFromRoot (c : Certificates) (ia : IA)
    (v : Validity) (km : KeyMat) : Except String Certificates :=
  match c.keys CertType.root, c.certs CertType.root with
  | some rootKey, some rootCert =>
    let (cert, key) := generateASCert ia
      ("ISD" ++ toString ia.isd ++ "-AS" ++ fmtAS ia.as2 ++ " AS Certificate")
      v (some (rootCert, rootKey)) km
    Except.ok (c.store CertType.leaf cert key)
  | _, _ => Except.error "cannot generate AS cert: missing root material"

/-- `Certificates.generateASCertSelfSigned`. -/
def Certificates.generateASCertSelfSigned (c : Certificates) (ia : IA)
    (v : Validity) (km : KeyMat) : Except String Certificates :=
  let (cert, key) := generateASCert ia
    ("ISD" ++ toString ia.isd ++ "-AS" ++ fmtAS ia.as2
      ++ " AS Certificate (Self-Signed)") v none km
  Except.ok (c.store CertType.leaf cert key)

/-- `Certificates.Create`: generate the certificates prescribed by the AS
role.  `km` supplies the fresh key material drawn for each kind. -/
def Certificates.create (c : Certificates) (ia : IA) (t : ASType)
    (v : Validity) (km : CertType → KeyMat) : Except String Certificates :=
  match t with
  | ASType.core => do
    let c ← c.generateCert ia CertType.root v (km CertType.root)
    let c ← c.generateCert ia CertType.sensitive v (km CertType.sensitive)
    let c ← c.generateCert ia CertType.regular v (km CertType.regular)
    c.generateASCertFromRoot ia v (km CertType.leaf)
  | ASType.authoritative => do
    let c ← c.generateCert ia CertType.regular v (km CertType.regular)
    c.generateASCertSelfSigned ia v (km CertType.leaf)
  | ASType.normal =>
    c.generateASCertSelfSigned ia v (km CertType.leaf)

/-! ## TRCs (`pkg/pki/trcs.go`) -/

/-- `cppki.TRCID`. -/
structure TRCID where
  isd : Nat
  base : Nat
  serial : Nat
deriving DecidableEq, Repr

/-- The ASN.1 TRC payload built by `GenerateBaseTRC` (`asn1TRCPayload`).
The DER blob `cppki.TRC.Raw` is represented by this structure: Go's
`encoding/asn1` round-trips it and DER encoding is injective, so the
structure stands for its encoding.  Certificates appear as the parsed form
of their DER (`asn1.RawValue{Bytes: cert.Raw}`). -/
structure TRCPayload where
  version : Int
  id : TRCID
  validity : Validity
  gracePeriod : Int
  noTrustReset : Bool
  votes : List Int
  quorum : Int
  coreASes : List String
  authoritativeASes : List String
  description : String
  certificates : List Cert
deriving DecidableEq, Repr

/-- `cppki.TRC` (the fields CION reads or writes).  `raw` is the encoded
payload (`none` models a nil `Raw`). -/
structure TRC where
  raw : Option TRCPayload
  version : Nat
  id : TRCID
  validity : Validity
  gracePeriod : Int
  noTrustReset : Bool
  votes : List Nat
  quorum : Nat
  coreASes : List Nat
  authoritativeASes : List Nat
  description : String
  certificates : List Cert
deriving DecidableEq, Repr

/-- Modelled from the spec: `cppki.TRC.Validate` is external library code
(scionproto `pkg/scrypto/cppki`); the spec's §3 TRC invariants describe the
structural checks — ISD in [1, 4094], core ASes unique and non-empty,
authoritative ⊆ core, certificate validity containing the TRC validity,
certificates unique, quorum ≥ 1, and empty votes plus zero grace period for
a base TRC. -/
def cppkiValidate (t : TRC) : Bool :=
  decide (1 ≤ t.id.isd ∧ t.id.isd ≤ 4094
    ∧ t.coreASes ≠ [] ∧ t.coreASes.Nodup
    ∧ (∀ a ∈ t.authoritativeASes, a ∈ t.coreASes)
    ∧ t.certificates.Nodup
    ∧ (∀ c ∈ t.certificates,
        c.notBefore ≤ t.validity.notBefore ∧ t.validity.notAfter ≤ c.notAfter)
    ∧ 1 ≤ t.quorum
    ∧ (t.id.base = t.id.serial → t.votes = [] ∧ t.gracePeriod = 0))

/-- Errors of the TRC state machine (`pkg/pki/trcs.go` sentinel errors;
`invalidTRC` stands for the wrapped `"invalid TRC"` validation failure). -/
inductive TRCErr where
  | invalidTRC
  | isdMismatch
  | trcSerialSmaller
  | trcBaseMismatch
  | trcUpdateUnsupported
deriving DecidableEq, Repr

/-- `pki.TRCs`: the per-ISD TRC state machine. -/
structure TRCs where
  isd : Nat
  current : Option TRC
  pending : List TRC
deriving Repr

/-- `pki.NewTRCs`. -/
def newTRCs (isd : Nat) : TRCs := ⟨isd, none, []⟩

/-- `TRCs.Update`: returns the post-state together with `none` on success
or the error that was returned. -/
def TRCs.update (t : TRCs) (trc : TRC) : TRCs × Option TRCErr :=
  if ¬ cppkiValidate trc then (t, some TRCErr.invalidTRC)
  else if trc.id.isd ≠ t.isd then (t, some TRCErr.isdMismatch)
  else
    match t.current with
    | none =>
      if trc.id.serial ≠ trc.id.base then (t, some TRCErr.trcUpdateUnsupported)
      else ({ t with current := some trc }, none)
    | some cur =>
      if trc.id.base ≠ cur.id.base then (t, some TRCErr.trcBaseMismatch)
      else if trc.id.serial ≤ cur.id.serial then
        (t, some TRCErr.trcSerialSmaller)
      else (t, some TRCErr.trcUpdateUnsupported)

/-- `pki.GenerateBaseTRC` (`pkg/pki/trcs.go`): generates a root and two
voting certificates, assembles the ASN.1 payload and the `cppki.TRC`, and
validates the result.  `kmRoot`, `kmSens`, `kmReg` are the fresh key
materials drawn for the three certificates.  An empty `coreASes` list is an
error (the Go code indexes `coreASes[0]`). -/
def generateBaseTRC (isd version baseVersion : Nat) (description : String)
    (validity : Validity) (coreASes authASes : List Nat)
    (kmRoot kmSens kmReg : KeyMat) : Except String (TRC × Nat) :=
  match coreASes with
  | [] => Except.error "no core AS"
  | rootAS :: _ =>
    let tv := truncValidity validity
    let rootIA : IA := ⟨isd, rootAS⟩
    let (rootCert, privKey) := generateRootCert rootIA
      ("ISD" ++ toString isd ++ "-AS" ++ fmtAS rootAS ++ " Root") tv kmRoot
    let (sensitiveCert, _) := generateVotingCert rootIA
      ("ISD" ++ toString isd ++ "-AS" ++ fmtAS rootAS ++ " Sensitive Voting")
      oidExtKeyUsageSensitive tv kmSens
    let (regularCert, _) := generateVotingCert rootIA
      ("ISD" ++ toString isd ++ "-AS" ++ fmtAS rootAS ++ " Regular Voting")
      oidExtKeyUsageRegular tv kmReg
    let allCerts := [rootCert, sensitiveCert, regularCert]
    let isBase := version = baseVersion
    let payload : TRCPayload :=
      { version := 0
        id := ⟨isd, baseVersion, version⟩
        validity := tv
        gracePeriod := 0
        noTrustReset := false
        votes := if isBase then [] else [0]
        quorum := 1
        coreASes := [fmtAS rootAS]
        authoritativeASes := authASes.map fmtAS
        description := description
        certificates := allCerts }
    let trc : TRC :=
      { raw := some payload
        version := 1
        id := ⟨isd, baseVersion, version⟩
        validity := tv
        gracePeriod := 0
        noTrustReset := false
        votes := []
        quorum := 1
        coreASes := coreASes
        authoritativeASes := authASes
        description := description
        certificates := allCerts }
    if cppkiValidate trc then Except.ok (trc, privKey)
    else Except.error "generated TRC failed cppki validation"

/-! ## Trust store (`pkg/trust/impl/bbolt/db.go`)

The bbolt database is two bucket trees: `trcs` keyed by the ISD string and
then by the 16-byte big-endian `Base || Serial` composite, and `chains`
keyed by the IA string of the AS certificate and then by
`SubjectKeyId || chain-hash`.  A bucket is an association list whose keys
are unique; values store the decoded form of the DER blobs they hold
(`cppki.DecodeSignedTRC` / `x509.ParseCertificates` invert the encoding).
The SHA-256 `chainID` is an opaque parameter `sha`. -/

/-- A stored signed TRC: its identifier, the DER payload bytes
(`SignedTRC.TRC.Raw`, compared on conflicting inserts) and the full signed
DER (`SignedTRC.Raw`, the stored value). -/
structure SignedTRC where
  id : TRCID
  trcRaw : List Nat
  raw : List Nat
deriving DecidableEq, Repr

/-- The zero `cppki.SignedTRC` returned for absent records. -/
def emptySignedTRC : SignedTRC := ⟨⟨0, 0, 0⟩, [], []⟩

/-- `scrypto.Version.IsLatest`: the wildcard version is `0`
(`scrypto.LatestVer`). -/
def isLatestVer (v : Nat) : Bool := v == 0

/-- The 16-byte `Base || Serial` composite key of the TRCs bucket. -/
def trcKey (id : TRCID) : List Nat := beBytes 8 id.base ++ beBytes 8 id.serial

/-- The trust database: the `trcs` and `chains` bucket trees. -/
structure TrustDB where
  trcs : List (String × List (List Nat × SignedTRC))
  chains : List (String × List (List Nat × (Cert × Cert)))
deriving DecidableEq, Repr

/-- The empty database (`New` creates the two top-level buckets). -/
def emptyDB : TrustDB := ⟨[], []⟩

/-- `bboltDB.InsertTRC`: `Except.ok inserted` on success, `Except.error` for
a conflicting TRC (same composite key, different payload bytes). -/
def insertTRC (db : TrustDB) (t : SignedTRC) : TrustDB × Except String Bool :=
  let bname := toString t.id.isd
  let bucket := (lookupA db.trcs bname).getD []
  match lookupA bucket (trcKey t.id) with
  | some existing =>
    if existing.trcRaw ≠ t.trcRaw then (db, Except.error "insert conflicted TRC")
    else (db, Except.ok false)
  | none =>
    ({ db with trcs := putA db.trcs bname (putA bucket (trcKey t.id) t) },
     Except.ok true)

/-- `bboltDB.SignedTRC`: wildcard lookups take the last (largest) key of
the ISD bucket; a half-wildcard identifier is an unsupported query; absent
buckets or records yield the empty TRC without error. -/
def signedTRCLookup (db : TrustDB) (id : TRCID) : Except String SignedTRC :=
  if isLatestVer id.base ≠ isLatestVer id.serial then
    Except.error "unsupported TRC ID for query"
  else
    match lookupA db.trcs (toString id.isd) with
    | none => Except.ok emptySignedTRC
    | some bucket =>
      let raw? :=
        if isLatestVer id.base then (lastEntry bucket).map (·.2)
        else lookupA bucket (trcKey id)
      match raw? with
      | none => Except.ok emptySignedTRC
      | some t => Except.ok t

/-- `bboltDB.InsertChain`: a chain is the pair (AS cert, CA cert); the
bucket is named by the AS certificate's IA string and the key is
`SubjectKeyId || sha(chain)`. -/
def insertChain (sha : Cert × Cert → List Nat) (db : TrustDB)
    (chain : List Cert) : TrustDB × Except String Bool :=
  match chain with
  | [c0, c1] =>
    let bname := iaString c0.subjectIA
    let bucket := (lookupA db.chains bname).getD []
    let key := c0.subjectKeyId ++ sha (c0, c1)
    match lookupA bucket key with
    | some _ => (db, Except.ok false)
    | none =>
      ({ db with chains := putA db.chains bname (putA bucket key (c0, c1)) },
       Except.ok true)
  | _ => (db, Except.error "invalid chain length")

/-- Well-formedness of a TRCs bucket: every entry is keyed by the
`Base || Serial` composite of its record's identifier, with in-range
(64-bit) versions — the invariant `InsertTRC` maintains. -/
def wfBucket (bucket : List (List Nat × SignedTRC)) : Prop :=
  ∀ e ∈ bucket, e.1 = trcKey e.2.id
    ∧ e.2.id.base < 2 ^ 64 ∧ e.2.id.serial < 2 ^ 64

instance (bucket : List (List Nat × SignedTRC)) : Decidable (wfBucket bucket) :=
  List.decidableBAll _ bucket

/-- `trust.ChainQuery`. -/
structure ChainQuery where
  ia : IA
  subjectKeyID : List Nat
  validity : Validity

/-- Byte-string prefix test (`bytes.HasPrefix`). -/
def hasPrefix (l p : List Nat) : Bool := p.isPrefixOf l

/-- `bytes.HasPrefix` on `[]byte(string)` keys: character-level prefix
(the strings involved are ASCII, where the two coincide). -/
def strHasPrefix (s p : String) : Bool := p.data.isPrefixOf s.data

/-- The validity filter of `bboltDB.Chains` on the AS certificate:
`!NotBefore.After(q.NotBefore)` and `!NotAfter.Before(q.NotAfter)`, with
zero query bounds unconstrained. -/
def chainValidityOK (c : Cert) (v : Validity) : Bool :=
  (v.notBefore == 0 || decide (c.notBefore ≤ v.notBefore))
    && (v.notAfter == 0 || decide (v.notAfter ≤ c.notAfter))

/-- `bboltDB.Chains`: a cursor scan over the IA buckets whose name extends
the query IA string (all of them for a zero IA), then over the entries
whose composite key extends the query SubjectKeyId, filtered by validity.
A bbolt prefix scan (`Seek` + `Next` while `HasPrefix`) visits exactly the
prefix-matching keys, so it is modelled as a filter. -/
def chainsQuery (db : TrustDB) (q : ChainQuery) : List (Cert × Cert) :=
  let iaPre := if q.ia.isZero then "" else iaString q.ia
  (db.chains.filter (fun b => strHasPrefix b.1 iaPre)).flatMap (fun b =>
    ((b.2.filter (fun e => hasPrefix e.1 q.subjectKeyID)).map (·.2)).filter
      (fun ch => chainValidityOK ch.1 q.validity))

/-- The chains bucket tree flattened into (bucket name, key, chain)
triples: everything the store holds. -/
def storedChains (db : TrustDB) : List (String × List Nat × (Cert × Cert)) :=
  db.chains.flatMap (fun b => b.2.map (fun e => (b.1, e.1, e.2)))

/-! ## SCION path wire format (scionproto `pkg/slayers/path/scion`)

The router depends on the external path codec; it is reproduced here from
the SCION path wire format: a 4-byte meta header
(CurrINF:2 CurrHF:6 RSV:6 SegLen0:6 SegLen1:6 SegLen2:6), `NumINF` 8-byte
info fields and `NumHops` 12-byte hop fields. -/

/-- `path.InfoField`. -/
structure InfoField where
  consDir : Bool
  peer : Bool
  segID : Nat
  timestamp : Nat
deriving DecidableEq, Repr

/-- `path.HopField` (`mac` is the 6-byte hop MAC). -/
structure HopField where
  ingressRouterAlert : Bool
  egressRouterAlert : Bool
  expTime : Nat
  consIngress : Nat
  consEgress : Nat
  mac : List Nat
deriving DecidableEq, Repr

/-- `scion.MetaHdr`. -/
structure MetaHdr where
  currINF : Nat
  currHF : Nat
  segLen0 : Nat
  segLen1 : Nat
  segLen2 : Nat
deriving DecidableEq, Repr

/-- `scion.Decoded` (the base header plus the decoded fields). -/
structure Decoded where
  meta : MetaHdr
  numINF : Nat
  numHops : Nat
  infoFields : List InfoField
  hopFields : List HopField
deriving DecidableEq, Repr

/-- `scion.MetaHdr.DecodeFromBytes`: read the big-endian 32-bit line and
unpack the bit fields. -/
def metaDecode (b : List Nat) : Option MetaHdr :=
  match b with
  | b0 :: b1 :: b2 :: b3 :: _ =>
    let line := b0 * 16777216 + b1 * 65536 + b2 * 256 + b3
    some ⟨line >>> 30, (line >>> 24) % 64, (line >>> 12) % 64,
      (line >>> 6) % 64, line % 64⟩
  | _ => none

/-- `scion.MetaHdr.SerializeTo`: pack the bit fields into a 32-bit line
(Go `uint32` arithmetic masks `CurrINF` to its two bits). -/
def metaSerialize (m : MetaHdr) : List Nat :=
  beBytes 4 (((m.currINF % 4) <<< 30) + ((m.currHF % 64) <<< 24)
    + ((m.segLen0 % 64) <<< 12) + ((m.segLen1 % 64) <<< 6) + (m.segLen2 % 64))

/-- `scion.Base.DecodeFromBytes`: derive `NumINF`/`NumHops` from the
segment lengths, walking indices 2, 1, 0 and rejecting a zero segment
length below a non-zero one. -/
def baseDecode (b : List Nat) : Option (MetaHdr × Nat × Nat) :=
  match metaDecode b with
  | none => none
  | some m =>
    let nInf2 := if 0 < m.segLen2 then 3 else 0
    if m.segLen1 = 0 ∧ 0 < nInf2 then none
    else
      let nInf1 := if 0 < m.segLen1 ∧ nInf2 = 0 then 2 else nInf2
      if m.segLen0 = 0 ∧ 0 < nInf1 then none
      else
        let nInf0 := if 0 < m.segLen0 ∧ nInf1 = 0 then 1 else nInf1
        some (m, nInf0, m.segLen0 + m.segLen1 + m.segLen2)

/-- `path.InfoField.DecodeFromBytes` at an 8-byte slice. -/
def infoDecodeAt (b : List Nat) : InfoField :=
  ⟨byteAt b 0 % 2 == 1, (byteAt b 0) / 2 % 2 == 1,
   byteAt b 2 * 256 + byteAt b 3,
   byteAt b 4 * 16777216 + byteAt b 5 * 65536 + byteAt b 6 * 256 + byteAt b 7⟩

/-- `path.InfoField.SerializeTo`: flags byte, reserved zero byte, SegID,
Timestamp. -/
def infoSerialize (i : InfoField) : List Nat :=
  ((if i.peer then 2 else 0) + (if i.consDir then 1 else 0)) :: 0 ::
    (beBytes 2 i.segID ++ beBytes 4 i.timestamp)

/-- `path.HopField.DecodeFromBytes` at a 12-byte slice. -/
def hopDecodeAt (b : List Nat) : HopField :=
  ⟨(byteAt b 0) / 2 % 2 == 1, byteAt b 0 % 2 == 1, byteAt b 1,
   byteAt b 2 * 256 + byteAt b 3, byteAt b 4 * 256 + byteAt b 5,
   [byteAt b 6, byteAt b 7, byteAt b 8, byteAt b 9, byteAt b 10, byteAt b 11]⟩

/-- `path.HopField.SerializeTo`: flags byte, ExpTime, ConsIngress,
ConsEgress, 6 MAC bytes (the Go MAC is a fixed 6-byte array; a model MAC
list is padded or truncated to 6 bytes). -/
def hopSerialize (h : HopField) : List Nat :=
  ((if h.ingressRouterAlert then 2 else 0)
      + (if h.egressRouterAlert then 1 else 0)) :: h.expTime % 256 ::
    (beBytes 2 h.consIngress ++ beBytes 2 h.consEgress
      ++ (h.mac ++ List.replicate 6 0).take 6)

/-- `scion.Decoded.Len`: `MetaLen + NumINF*8 + NumHops*12`. -/
def Decoded.len (d : Decoded) : Nat := 4 + 8 * d.numINF + 12 * d.numHops

/-- `scion.Decoded.DecodeFromBytes`: base header, length check, then the
info and hop fields at their offsets. -/
def decodeFromBytes (b : List Nat) : Option Decoded :=
  match baseDecode b with
  | none => none
  | some (m, numINF, numHops) =>
    if b.length < 4 + 8 * numINF + 12 * numHops then none
    else
      some ⟨m, numINF, numHops,
        (List.range numINF).map (fun i => infoDecodeAt (b.drop (4 + 8 * i))),
        (List.range numHops).map
          (fun i => hopDecodeAt (b.drop (4 + 8 * numINF + 12 * i)))⟩

/-- The byte image of a decoded path. -/
def serializeBytes (d : Decoded) : List Nat :=
  metaSerialize d.meta ++ (d.infoFields.map infoSerialize).flatten
    ++ (d.hopFields.map hopSerialize).flatten

/-- `scion.Decoded.SerializeTo` into an existing buffer: fails without
writing when the buffer is shorter than `Len`; otherwise overwrites the
path image and leaves the rest of the buffer unchanged. -/
def serializeTo (d : Decoded) (b : List Nat) : Option (List Nat) :=
  if b.length < d.len then none
  else some (serializeBytes d ++ b.drop (serializeBytes d).length)

/-- `path.InfoField.UpdateSegID`: XOR the SegID with the big-endian 16-bit
value of the first two MAC bytes. -/
def updateSegID (i : InfoField) (mac : List Nat) : InfoField :=
  { i with segID := i.segID ^^^ (byteAt mac 0 * 256 + byteAt mac 1) }

/-- `path.ExpTimeToDuration` in nanoseconds:
`(expTime + 1) * (24h / 256)` where `24h / 256 = 337.5s`. -/
def expTimeToDurationNs (expTime : Nat) : Int := (expTime + 1) * 337500000000

/-- The expiration instant of a hop: `Unix(info.Timestamp) + ExpTime
duration` in nanoseconds. -/
def expiryNs (info : InfoField) (hop : HopField) : Int :=
  (info.timestamp : Int) * 1000000000 + expTimeToDurationNs hop.expTime

/-! ## The router (`pkg/dataplane/router.go`)

A packet is its decoded SCION header together with the raw-path byte
region `rawPath` (`scion.Raw.Raw`, a sub-slice of the packet buffer).  The
Go `Process` reads the rest of the buffer but writes only through
`SerializeTo(raw.Raw)`, so `rawPath` is the packet's only mutable region:
a packet model is bit-identical to another iff the header inputs agree and
the `rawPath` bytes agree.  The outer-header codec (gopacket slayers) is
external; its result is the `hdr` field, where `none` models a decode
failure, `isRawSCION` whether the decoded path is a `*scion.Raw`, and
`dstHost` the result of `DstAddr()` (`none` models an address type that
decodes but does not parse). -/

/-- The decoded outer SCION header, as far as `Process` consults it. -/
structure SCIONHdr where
  dstIA : IA
  dstHost : Option Nat
  isRawSCION : Bool
deriving DecidableEq, Repr

/-- A packet: decoded header view plus the raw path bytes. -/
structure Packet where
  hdr : Option SCIONHdr
  rawPath : List Nat
deriving DecidableEq, Repr

/-- `dataplane.NextHop` (the underlay address, an opaque IP and a port). -/
structure NextHop where
  addr : Nat × Nat
deriving DecidableEq, Repr

/-- `dataplane.Router`: the local IA, the interface table, and the MAC
oracle (`none` models a nil `MacFactory`; `some f` models a keyed MAC whose
value on `(info, hop)` is `f info hop`). -/
structure Router where
  localIA : IA
  externalNextHops : List (Nat × (Nat × Nat))
  macF : Option (InfoField → HopField → List Nat)

/-- The error outcomes of `Router.Process`, one per `return` site. -/
inductive PErr where
  | decodeFailed
  | notRawPath
  | pathDecodeFailed
  | indicesOOB
  | hopExpired
  | ingressMismatch
  | macInvalid
  | localDstMismatch
  | serializeFailed
  | dstAddrFailed
  | egressZeroInternal
  | unknownExternalInterface
  | pathOverflow
deriving DecidableEq, Repr

/-- The current info field `InfoFields[CurrINF]`. -/
def resolvedInfo (dec : Decoded) : InfoField :=
  dec.infoFields.getD dec.meta.currINF ⟨false, false, 0, 0⟩

/-- The current hop field `HopFields[CurrHF]`. -/
def resolvedHop (dec : Decoded) : HopField :=
  dec.hopFields.getD dec.meta.currHF ⟨false, false, 0, 0, 0, []⟩

/-- Step 4 of `Process`: the resolved ingress interface of the current
hop (swapped when travelling against construction direction). -/
def inIfID (dec : Decoded) : Nat :=
  if (resolvedInfo dec).consDir then (resolvedHop dec).consIngress
  else (resolvedHop dec).consEgress

/-- Step 4 of `Process`: the resolved egress interface of the current
hop. -/
def outIfID (dec : Decoded) : Nat :=
  if (resolvedInfo dec).consDir then (resolvedHop dec).consEgress
  else (resolvedHop dec).consIngress

/-- Step 5 of `Process`: the info field after the ingress-side SegID
update (applied when the packet arrived on an external interface and
travels against construction direction). -/
def ingressInfo (dec : Decoded) (ingressID : Nat) : InfoField :=
  if ingressID ≠ 0 ∧ ¬ (resolvedInfo dec).consDir then
    updateSegID (resolvedInfo dec) (resolvedHop dec).mac
  else resolvedInfo dec

/-- Step 5 of `Process`: the decoded path with the ingress-side SegID
update written back. -/
def ingressPath (dec : Decoded) (ingressID : Nat) : Decoded :=
  if ingressID ≠ 0 ∧ ¬ (resolvedInfo dec).consDir then
    { dec with
      infoFields := dec.infoFields.set dec.meta.currINF
        (ingressInfo dec ingressID) }
  else dec

/-- Step 6 of `Process`: the MAC check — vacuously true with a nil
`MacFactory`, otherwise a comparison of the hop MAC against the oracle. -/
def macCheck (r : Router) (info1 : InfoField) (hop : HopField) : Bool :=
  match r.macF with
  | none => true
  | some f => f info1 hop == hop.mac

/-- The path mutation of `Router.processEgress`: update the SegID when in
construction direction and increment the hop index (8-bit increment). -/
def egressPath (dec1 : Decoded) (info1 : InfoField) (hop : HopField) :
    Decoded :=
  if info1.consDir then
    { dec1 with
      infoFields := dec1.infoFields.set dec1.meta.currINF
        (updateSegID info1 hop.mac)
      meta := { dec1.meta with currHF := (dec1.meta.currHF + 1) % 256 } }
  else
    { dec1 with
      meta := { dec1.meta with currHF := (dec1.meta.currHF + 1) % 256 } }

/-- The local-delivery tail of `Router.Process` (after the
`DstIA = LocalIA` check): commit the path to the buffer, then resolve the
destination host — the write-back precedes `DstAddr()`. -/
def localDeliver (pkt : Packet) (hdr : SCIONHdr) (dec1 : Decoded) :
    Packet × Except PErr NextHop :=
  match serializeTo dec1 pkt.rawPath with
  | none => (pkt, Except.error PErr.serializeFailed)
  | some raw1 =>
    match hdr.dstHost with
    | none => ({ pkt with rawPath := raw1 }, Except.error PErr.dstAddrFailed)
    | some ip => ({ pkt with rawPath := raw1 }, Except.ok ⟨(ip, 0)⟩)

/-- `Router.processEgress` together with the final next-hop return:
mutate the path, check the hop-index bound, and write the path back. -/
def processEgress (pkt : Packet) (dec1 : Decoded) (info1 : InfoField)
    (hop : HopField) (nh : Nat × Nat) : Packet × Except PErr NextHop :=
  if (egressPath dec1 info1 hop).numHops
      ≤ (egressPath dec1 info1 hop).meta.currHF then
    (pkt, Except.error PErr.pathOverflow)
  else
    match serializeTo (egressPath dec1 info1 hop) pkt.rawPath with
    | none => (pkt, Except.error PErr.serializeFailed)
    | some raw3 => ({ pkt with rawPath := raw3 }, Except.ok ⟨nh⟩)

/-- The forwarding logic of `Router.Process` (step 7 onwards), after the
ingress update has produced `dec1`/`info1`. -/
def forward (r : Router) (pkt : Packet) (hdr : SCIONHdr) (dec1 : Decoded)
    (info1 : InfoField) (hop : HopField) (ingressID outID : Nat) :
    Packet × Except PErr NextHop :=
  if ingressID ≠ 0 ∧ outID = 0 then
    if hdr.dstIA ≠ r.localIA then (pkt, Except.error PErr.localDstMismatch)
    else localDeliver pkt hdr dec1
  else if outID = 0 then (pkt, Except.error PErr.egressZeroInternal)
  else
    match lookupA r.externalNextHops outID with
    | none => (pkt, Except.error PErr.unknownExternalInterface)
    | some nh => processEgress pkt dec1 info1 hop nh

/-- `Router.Process`: returns the (possibly written-back) packet and the
next hop or error.  `now` is the sampled wall clock in nanoseconds. -/
def process (r : Router) (pkt : Packet) (ingressID : Nat) (now : Int) :
    Packet × Except PErr NextHop :=
  match pkt.hdr with
  | none => (pkt, Except.error PErr.decodeFailed)
  | some hdr =>
    if ¬ hdr.isRawSCION then (pkt, Except.error PErr.notRawPath)
    else
      match decodeFromBytes pkt.rawPath with
      | none => (pkt, Except.error PErr.pathDecodeFailed)
      | some dec =>
        if dec.infoFields.length ≤ dec.meta.currINF
            ∨ dec.hopFields.length ≤ dec.meta.currHF then
          (pkt, Except.error PErr.indicesOOB)
        else if expiryNs (resolvedInfo dec) (resolvedHop dec) < now then
          (pkt, Except.error PErr.hopExpired)
        else if ingressID ≠ 0 ∧ ingressID ≠ inIfID dec then
          (pkt, Except.error PErr.ingressMismatch)
        else if macCheck r (ingressInfo dec ingressID) (resolvedHop dec)
            = false then
          (pkt, Except.error PErr.macInvalid)
        else
          forward r pkt hdr (ingressPath dec ingressID)
            (ingressInfo dec ingressID) (resolvedHop dec) ingressID
            (outIfID dec)

/-! ## Concrete sample data

Closed instances used to evaluate the model at specific inputs. -/

/-- A certificate-free TRC for ISD 1, base 1, with the given serial. -/
def sampleCertlessTRC (serial : Nat) : TRC :=
  { raw := none
    version := 1
    id := ⟨1, 1, serial⟩
    validity := ⟨0, 3600000000000⟩
    gracePeriod := 0
    noTrustReset := false
    votes := []
    quorum := 1
    coreASes := [1]
    authoritativeASes := [1]
    description := "sample"
    certificates := [] }

/-- A TRC state machine for ISD 1 initialised with the base TRC. -/
def sampleMachine : TRCs := ⟨1, some (sampleCertlessTRC 1), []⟩

/-- Sample fresh key material. -/
def kmA : KeyMat := ⟨1, 2, [1], 10⟩

/-- Sample fresh key material. -/
def kmB : KeyMat := ⟨3, 4, [2], 11⟩

/-- Sample fresh key material. -/
def kmC : KeyMat := ⟨5, 6, [3], 12⟩

/-- A sample signed TRC for ISD 1 with the given base and serial. -/
def sampleSignedTRC (b s : Nat) : SignedTRC := ⟨⟨1, b, s⟩, [b, s], [b, s, 9]⟩

/-- A trust database holding the signed TRCs (1,1,1) and (1,1,2). -/
def sampleTRCDB : TrustDB :=
  (insertTRC (insertTRC emptyDB (sampleSignedTRC 1 1)).1
    (sampleSignedTRC 1 2)).1

/-- The ISD-1 bucket of `sampleTRCDB`. -/
def sampleBucket : List (List Nat × SignedTRC) :=
  [(trcKey ⟨1, 1, 1⟩, sampleSignedTRC 1 1),
   (trcKey ⟨1, 1, 2⟩, sampleSignedTRC 1 2)]

/-- A minimal AS certificate with the given IA and subject key id. -/
def sampleChainCert (ia : IA) (skid : List Nat) : Cert :=
  ⟨1, "as", ia, "ca", ia, 5, 10, keyUsageDigitalSignature,
   [XKU.serverAuth, XKU.clientAuth], [], true, false, 0, false, 3, 2, skid, 3⟩

/-- A trust database holding one chain whose AS certificate belongs to IA
`1-11`. -/
def sampleChainDB : TrustDB :=
  (insertChain (fun _ => [7]) emptyDB
    [sampleChainCert ⟨1, 11⟩ [4], sampleChainCert ⟨1, 11⟩ [5]]).1

/-- The router of the mutation-on-error example: local IA `1-10`, no
external interfaces, nil MAC factory. -/
def cRouter : Router := ⟨⟨1, 10⟩, [], none⟩

/-- The raw path of the mutation-on-error example: one segment of one hop,
`ConsDir = false`, resolved ingress 1, resolved egress 0, MAC starting with
byte 1. -/
def cPathBytes : List Nat :=
  [0, 0, 16, 0] ++ [0, 0, 0, 0, 0, 0, 0, 0]
    ++ [0, 63, 0, 0, 0, 1, 1, 0, 0, 0, 0, 0]

/-- The packet of the mutation-on-error example: destination IA is the
local IA, and the destination host address fails to parse. -/
def cPacket : Packet := ⟨some ⟨⟨1, 10⟩, none, true⟩, cPathBytes⟩

/-- The router of the egress example: interface 2 maps to underlay
`(102, 50000)`. -/
def tRouter : Router := ⟨⟨1, 99⟩, [(2, (102, 50000))], none⟩

/-- The raw path of the egress example: one segment of two hops,
`ConsDir = true`, current hop `(ConsIngress 1, ConsEgress 2)`. -/
def tPathBytes : List Nat :=
  [0, 0, 32, 0] ++ [1, 0, 0, 0, 0, 0, 0, 0]
    ++ [0, 63, 0, 1, 0, 2, 0, 0, 0, 0, 0, 0]
    ++ [0, 63, 0, 2, 0, 3, 0, 0, 0, 0, 0, 0]

/-- The packet of the egress example. -/
def tPacket : Packet := ⟨some ⟨⟨1, 2⟩, some 7, true⟩, tPathBytes⟩

/-- The decoded form of `tPathBytes`. -/
def tDecoded : Decoded :=
  ⟨⟨0, 0, 2, 0, 0⟩, 1, 2,
   [⟨true, false, 0, 0⟩],
   [⟨false, false, 63, 1, 2, [0, 0, 0, 0, 0, 0]⟩,
    ⟨false, false, 63, 2, 3, [0, 0, 0, 0, 0, 0]⟩]⟩

/-! # Theorems -/

/-! ## Association-list lemmas -/

theorem lookupA_putA_self {K V : Type} [DecidableEq K] (l : List (K × V))
    (k : K) (v : V) : lookupA (putA l k v) k = some v := by
  induction l with
  | nil => simp [putA, lookupA]
  | cons hd tl ih =>
    by_cases h : hd.1 = k
    · simp [putA, lookupA, h]
    · cases hd with
      | mk k' v' => simp_all [putA, lookupA, h]

theorem lookupA_putA_ne {K V : Type} [DecidableEq K] (l : List (K × V))
    (k k' : K) (v : V) (h : k ≠ k') :
    lookupA (putA l k v) k' = lookupA l k' := by
  induction l with
  | nil => simp [putA, lookupA, h]
  | cons hd tl ih =>
    cases hd with
    | mk k0 v0 =>
      by_cases h0 : k0 = k
      · simp [putA, lookupA, h0, h]
      · simp [putA, lookupA, h0, ih]

/-! ## C2: the TRC state-machine update rules -/

/-- C2: `TRCs.Update` fails `InvalidTRC` on validation failure, then
`ISDMismatch` on a foreign ISD; with no current TRC it fails
`UpdateUnsupported` unless `Serial = Base`, in which case it installs the
TRC; with a current TRC it fails `BaseMismatch` on a differing base,
`SerialNotIncreasing` on a non-increasing serial, and `UpdateUnsupported`
otherwise; and every failure leaves the machine unchanged. -/
theorem TRCs_update_spec (t : TRCs) (trc : TRC) :
    (cppkiValidate trc = false → t.update trc = (t, some TRCErr.invalidTRC))
    ∧ (cppkiValidate trc = true → trc.id.isd ≠ t.isd →
        t.update trc = (t, some TRCErr.isdMismatch))
    ∧ (cppkiValidate trc = true → trc.id.isd = t.isd → t.current = none →
        (trc.id.serial ≠ trc.id.base →
          t.update trc = (t, some TRCErr.trcUpdateUnsupported))
        ∧ (trc.id.serial = trc.id.base →
          t.update trc = ({ t with current := some trc }, none)))
    ∧ (∀ cur, cppkiValidate trc = true → trc.id.isd = t.isd →
        t.current = some cur →
        (trc.id.base ≠ cur.id.base →
          t.update trc = (t, some TRCErr.trcBaseMismatch))
        ∧ (trc.id.base = cur.id.base → trc.id.serial ≤ cur.id.serial →
          t.update trc = (t, some TRCErr.trcSerialSmaller))
        ∧ (trc.id.base = cur.id.base → cur.id.serial < trc.id.serial →
          t.update trc = (t, some TRCErr.trcUpdateUnsupported)))
    ∧ (∀ e, (t.update trc).2 = some e → (t.update trc).1 = t) := by
  refine ⟨?_, ?_, ?_, ?_, ?_⟩
  · intro hv
    simp [TRCs.update, hv]
  · intro hv hisd
    simp [TRCs.update, hv, hisd]
  · intro hv hisd hcur
    constructor
    · intro hs
      simp [TRCs.update, hv, hisd, hcur, hs]
    · intro hs
      simp [TRCs.update, hv, hisd, hcur, hs]
  · intro cur hv hisd hcur
    refine ⟨?_, ?_, ?_⟩
    · intro hb
      simp [TRCs.update, hv, hisd, hcur, hb]
    · intro hb hs
      simp [TRCs.update, hv, hisd, hcur, hb, hs]
    · intro hb hs
      simp [TRCs.update, hv, hisd, hcur, hb, Nat.not_le.mpr hs, hs]
  · intro e
    unfold TRCs.update
    split
    · simp
    · split
      · simp
      · split
        · split <;> simp
        · split
          · simp
          · split <;> simp

/-- Witness for C2 at a concrete machine: an update with the same base and
a higher serial fails `UpdateUnsupported` and leaves the machine
unchanged. -/
theorem TRCs_update_spec_witness :
    sampleMachine.update (sampleCertlessTRC 2)
      = (sampleMachine, some TRCErr.trcUpdateUnsupported) := by
  have h := TRCs_update_spec sampleMachine (sampleCertlessTRC 2)
  have h4 := (h.2.2.2.1 (sampleCertlessTRC 1) (by decide) (by decide)
    (by rfl)).2.2 (by decide) (by decide)
  exact h4

/-! ## C7: non-base TRC generation is not rejected -/

/-- C7 counterexample: `GenerateBaseTRC` with `version = 2`,
`baseVersion = 1` (a non-base request) succeeds rather than failing — the
repository's own test `TestTRCsUpdateNonBaseAsFirst` likewise expects this
call to succeed. -/
theorem generateBaseTRC_nonbase_counterexample :
    (generateBaseTRC 1 2 1 "update" ⟨0, 3600000000000⟩ [1] [1]
      kmA kmB kmC).isOk = true := by
  decide

/-- C7 amended: `GenerateBaseTRC` does not reject `version ≠ baseVersion`;
a non-base request merely marks the encoded payload with `Votes = [0]` and
succeeds whenever the assembled TRC passes cppki validation (non-base TRCs
are refused only later, by `TRCs.Update`). -/
theorem generateBaseTRC_nonbase_amended :
    (∀ isd version baseVersion d v core auth k1 k2 k3 trc key,
      generateBaseTRC isd version baseVersion d v core auth k1 k2 k3
        = Except.ok (trc, key) →
      version ≠ baseVersion →
      ∃ p, trc.raw = some p ∧ p.votes = [0])
    ∧ (generateBaseTRC 1 2 1 "update" ⟨0, 3600000000000⟩ [1] [1]
        kmA kmB kmC).isOk = true := by
  constructor
  · intro isd version baseVersion d v core auth k1 k2 k3 trc key hgen hne
    unfold generateBaseTRC at hgen
    cases core with
    | nil => simp at hgen
    | cons a rest =>
      simp only at hgen
      rw [if_neg hne] at hgen
      split at hgen
      · injection hgen with hpair
        injection hpair with htrc hkey
        rw [← htrc]
        exact ⟨_, rfl, rfl⟩
      · simp at hgen
  · decide

/-- Witness for C7's amended theorem at the concrete non-base input: the
generated TRC's payload carries `Votes = [0]`. -/
theorem generateBaseTRC_nonbase_amended_witness :
    ((generateBaseTRC 1 2 1 "update" ⟨0, 3600000000000⟩ [1] [1]
      kmA kmB kmC).toOption.map (fun x => x.1.raw.map TRCPayload.votes))
      = some (some [0]) := by
  rcases hE : generateBaseTRC 1 2 1 "update" ⟨0, 3600000000000⟩ [1] [1]
      kmA kmB kmC with e | ⟨trc, key⟩
  · have h2 := generateBaseTRC_nonbase_amended.2
    rw [hE] at h2
    simp [Except.isOk, Except.toBool] at h2
  · obtain ⟨p, hp, hv⟩ := generateBaseTRC_nonbase_amended.1 1 2 1 "update"
      ⟨0, 3600000000000⟩ [1] [1] kmA kmB kmC trc key hE (by decide)
    simp [Except.toOption, hp, hv]

/-! ## C3: trust-store insert idempotence -/

/-- C3: `InsertTRC` of a TRC whose composite key is present returns
`(false, nil)` when the stored payload bytes are identical and fails with
the conflict error (without overwriting) when they differ; an absent key is
stored and reported `(true, nil)`; and `InsertChain` is idempotent on its
composite key. -/
theorem trust_store_insert_idempotent :
    (∀ db t existing,
      lookupA ((lookupA db.trcs (toString t.id.isd)).getD []) (trcKey t.id)
        = some existing →
      (existing.trcRaw = t.trcRaw → insertTRC db t = (db, Except.ok false))
      ∧ (existing.trcRaw ≠ t.trcRaw →
          insertTRC db t = (db, Except.error "insert conflicted TRC")))
    ∧ (∀ db t,
      lookupA ((lookupA db.trcs (toString t.id.isd)).getD []) (trcKey t.id)
        = none →
      (insertTRC db t).2 = Except.ok true
      ∧ lookupA ((lookupA (insertTRC db t).1.trcs (toString t.id.isd)).getD [])
          (trcKey t.id) = some t)
    ∧ (∀ sha db c0 c1 db1,
      insertChain sha db [c0, c1] = (db1, Except.ok true) →
      insertChain sha db1 [c0, c1] = (db1, Except.ok false)) := by
  refine ⟨?_, ?_, ?_⟩
  · intro db t existing hfound
    constructor
    · intro heq
      simp [insertTRC, hfound, heq]
    · intro hne
      simp [insertTRC, hfound, hne]
  · intro db t habsent
    constructor
    · simp [insertTRC, habsent]
    · simp [insertTRC, habsent, lookupA_putA_self]
  · intro sha db c0 c1 db1 hins
    unfold insertChain at hins ⊢
    simp only at hins ⊢
    split at hins
    · simp at hins
    · rename_i hnone
      injection hins with hdb hok
      subst hdb
      simp [lookupA_putA_self]

/-- Witness for C3 at concrete stores: re-inserting a stored signed TRC
reports `(false, nil)`, inserting a conflicting payload under the same key
fails without overwriting, and re-inserting a stored chain reports
`(false, nil)`. -/
theorem trust_store_insert_idempotent_witness :
    insertTRC sampleTRCDB (sampleSignedTRC 1 2)
      = (sampleTRCDB, Except.ok false)
    ∧ insertTRC sampleTRCDB ⟨⟨1, 1, 2⟩, [9, 9], [9]⟩
      = (sampleTRCDB, Except.error "insert conflicted TRC")
    ∧ insertChain (fun _ => [7]) sampleChainDB
        [sampleChainCert ⟨1, 11⟩ [4], sampleChainCert ⟨1, 11⟩ [5]]
      = (sampleChainDB, Except.ok false) := by
  refine ⟨?_, ?_, ?_⟩
  · exact (trust_store_insert_idempotent.1 sampleTRCDB (sampleSignedTRC 1 2)
      (sampleSignedTRC 1 2) (by decide)).1 (by decide)
  · exact (trust_store_insert_idempotent.1 sampleTRCDB ⟨⟨1, 1, 2⟩, [9, 9], [9]⟩
      (sampleSignedTRC 1 2) (by decide)).2 (by decide)
  · exact trust_store_insert_idempotent.2.2 (fun _ => [7]) emptyDB
      (sampleChainCert ⟨1, 11⟩ [4]) (sampleChainCert ⟨1, 11⟩ [5])
      sampleChainDB (by rfl)

/-! ## C8: the encoded TRC payload drops all but the first core AS -/

/-- C8 counterexample: generating a base TRC with two core ASes succeeds,
but the encoded payload's `CoreASes` list differs from the TRC's
`CoreASes` list — only the first core AS is encoded. -/
theorem generateBaseTRC_roundtrip_counterexample :
    (generateBaseTRC 1 1 1 "base" ⟨0, 3600000000000⟩ [1, 2] [1]
      kmA kmB kmC).isOk = true
    ∧ ((generateBaseTRC 1 1 1 "base" ⟨0, 3600000000000⟩ [1, 2] [1]
        kmA kmB kmC).toOption.map
          (fun x => decide (x.1.raw.map TRCPayload.coreASes
            = some (x.1.coreASes.map fmtAS)))) = some false := by
  constructor
  · decide
  · decide

/-- C8 amended: a successfully generated base TRC `T` passes the cppki
validator and its encoded payload agrees with `T` on ID, Validity, Quorum,
AuthoritativeASes, Description and Certificates, but its `CoreASes` list
holds only the first core AS (so full round-trip equality of `CoreASes`
holds only when `CoreASes` is a singleton). -/
theorem generateBaseTRC_roundtrip_amended :
    ∀ isd version baseVersion d v core auth k1 k2 k3 trc key,
      generateBaseTRC isd version baseVersion d v core auth k1 k2 k3
        = Except.ok (trc, key) →
      cppkiValidate trc = true
      ∧ ∃ p, trc.raw = some p
          ∧ p.id = trc.id
          ∧ p.validity = trc.validity
          ∧ p.quorum = (trc.quorum : Int)
          ∧ p.authoritativeASes = trc.authoritativeASes.map fmtAS
          ∧ p.description = trc.description
          ∧ p.certificates = trc.certificates
          ∧ ∃ a rest, trc.coreASes = a :: rest ∧ p.coreASes = [fmtAS a] := by
  intro isd version baseVersion d v core auth k1 k2 k3 trc key hgen
  unfold generateBaseTRC at hgen
  cases core with
  | nil => simp at hgen
  | cons a rest =>
    simp only at hgen
    split at hgen
    · split at hgen
      · rename_i hval
        injection hgen with hpair
        injection hpair with htrc hkey
        subst htrc
        exact ⟨hval, _, rfl, rfl, rfl, rfl, rfl, rfl, rfl, a, rest, rfl, rfl⟩
      · simp at hgen
    · split at hgen
      · rename_i hval
        injection hgen with hpair
        injection hpair with htrc hkey
        subst htrc
        exact ⟨hval, _, rfl, rfl, rfl, rfl, rfl, rfl, rfl, a, rest, rfl, rfl⟩
      · simp at hgen

/-- Witness for C8's amended theorem at the two-core-AS input: the
encoded payload's `AuthoritativeASes` equals the TRC's, rendered. -/
theorem generateBaseTRC_roundtrip_amended_witness :
    ((generateBaseTRC 1 1 1 "base" ⟨0, 3600000000000⟩ [1, 2] [1]
      kmA kmB kmC).toOption.map
        (fun x => decide (x.1.raw.map TRCPayload.authoritativeASes
          = some (x.1.authoritativeASes.map fmtAS)))) = some true := by
  rcases hE : generateBaseTRC 1 1 1 "base" ⟨0, 3600000000000⟩ [1, 2] [1]
      kmA kmB kmC with e | ⟨trc, key⟩
  · have h2 : (generateBaseTRC 1 1 1 "base" ⟨0, 3600000000000⟩ [1, 2] [1]
        kmA kmB kmC).isOk = true := by decide
    rw [hE] at h2
    simp [Except.isOk, Except.toBool] at h2
  · obtain ⟨hval, p, hp, hid, hv, hq, hauth, hd, hcerts, hrest⟩ :=
      generateBaseTRC_roundtrip_amended 1 1 1 "base" ⟨0, 3600000000000⟩
        [1, 2] [1] kmA kmB kmC trc key hE
    simp [Except.toOption, hp, hauth]

/-! ## C9: role-to-certificate mapping of `Certificates.Create` -/

/-- C9: on a fresh bundle, `Create(ia, Core, v)` yields exactly the kinds
Root, Sensitive, Regular and AS, the AS certificate signed by the
generated Root; `Create(ia, Authoritative, v)` yields exactly Regular and
AS; `Create(ia, Normal, v)` yields exactly AS; and each certificate
carries the classification attributes of its kind. -/
theorem certificates_create_roles (ia : IA) (v : Validity)
    (km : CertType → KeyMat) :
    (∃ b, newCertificates.create ia ASType.core v km = Except.ok b
      ∧ b.certs CertType.unknown = none
      ∧ (∃ c, b.certs CertType.root = some c ∧ c.isCA = true
          ∧ c.keyUsage = keyUsageCertSign ∧ c.maxPathLen = 1
          ∧ c.unknownExtKeyUsage = [oidExtKeyUsageRoot])
      ∧ (∃ c, b.certs CertType.sensitive = some c ∧ c.isCA = false
          ∧ c.unknownExtKeyUsage = [oidExtKeyUsageSensitive])
      ∧ (∃ c, b.certs CertType.regular = some c ∧ c.isCA = false
          ∧ c.unknownExtKeyUsage = [oidExtKeyUsageRegular])
      ∧ (∃ c, b.certs CertType.leaf = some c ∧ c.isCA = false
          ∧ c.extKeyUsage = [XKU.serverAuth, XKU.clientAuth]
          ∧ c.sigKey = (km CertType.root).priv
          ∧ c.issuerCN = "ISD" ++ toString ia.isd ++ "-AS" ++ fmtAS ia.as2
              ++ " Root"))
    ∧ (∃ b, newCertificates.create ia ASType.authoritative v km = Except.ok b
      ∧ b.certs CertType.unknown = none
      ∧ b.certs CertType.root = none
      ∧ b.certs CertType.sensitive = none
      ∧ (∃ c, b.certs CertType.regular = some c ∧ c.isCA = false
          ∧ c.unknownExtKeyUsage = [oidExtKeyUsageRegular])
      ∧ (∃ c, b.certs CertType.leaf = some c ∧ c.isCA = false
          ∧ c.extKeyUsage = [XKU.serverAuth, XKU.clientAuth]
          ∧ c.sigKey = (km CertType.leaf).priv))
    ∧ (∃ b, newCertificates.create ia ASType.normal v km = Except.ok b
      ∧ b.certs CertType.unknown = none
      ∧ b.certs CertType.root = none
      ∧ b.certs CertType.sensitive = none
      ∧ b.certs CertType.regular = none
      ∧ (∃ c, b.certs CertType.leaf = some c ∧ c.isCA = false
          ∧ c.extKeyUsage = [XKU.serverAuth, XKU.clientAuth]
          ∧ c.sigKey = (km CertType.leaf).priv)) := by
  refine ⟨⟨_, rfl, ?_⟩, ⟨_, rfl, ?_⟩, ⟨_, rfl, ?_⟩⟩ <;>
    simp [Certificates.create, Certificates.generateCert,
      Certificates.generateASCertFromRoot, Certificates.generateASCertSelfSigned,
      Certificates.store, newCertificates, generateRootCert, generateVotingCert,
      generateASCert]

/-! ## Router case analysis -/

theorem localDeliver_cases (pkt : Packet) (hdr : SCIONHdr) (dec1 : Decoded) :
    (localDeliver pkt hdr dec1).1 = pkt
    ∨ (localDeliver pkt hdr dec1).2 = Except.error PErr.dstAddrFailed
    ∨ ∃ nh, (localDeliver pkt hdr dec1).2 = Except.ok nh := by
  unfold localDeliver
  repeat' split
  · exact Or.inl rfl
  · exact Or.inr (Or.inl rfl)
  · exact Or.inr (Or.inr ⟨_, rfl⟩)

theorem processEgress_cases (pkt : Packet) (dec1 : Decoded)
    (info1 : InfoField) (hop : HopField) (nh : Nat × Nat) :
    (processEgress pkt dec1 info1 hop nh).1 = pkt
    ∨ ∃ nh', (processEgress pkt dec1 info1 hop nh).2 = Except.ok nh' := by
  unfold processEgress
  repeat' split
  · exact Or.inl rfl
  · exact Or.inl rfl
  · exact Or.inr ⟨_, rfl⟩

theorem forward_cases (r : Router) (pkt : Packet) (hdr : SCIONHdr)
    (dec1 : Decoded) (info1 : InfoField) (hop : HopField)
    (ingressID outID : Nat) :
    (forward r pkt hdr dec1 info1 hop ingressID outID).1 = pkt
    ∨ (forward r pkt hdr dec1 info1 hop ingressID outID).2
        = Except.error PErr.dstAddrFailed
    ∨ ∃ nh, (forward r pkt hdr dec1 info1 hop ingressID outID).2
        = Except.ok nh := by
  unfold forward
  repeat' split
  · exact Or.inl rfl
  · exact localDeliver_cases pkt hdr dec1
  · exact Or.inl rfl
  · exact Or.inl rfl
  · rcases processEgress_cases pkt dec1 info1 hop _ with h | ⟨nh', h⟩
    · exact Or.inl h
    · exact Or.inr (Or.inr ⟨nh', h⟩)

/-- Every run of `Process` either leaves the packet unchanged, fails at
destination-address resolution (after the local-delivery write-back), or
succeeds. -/
theorem forward_no_macInvalid (r : Router) (pkt : Packet) (hdr : SCIONHdr)
    (dec1 : Decoded) (info1 : InfoField) (hop : HopField)
    (ingressID outID : Nat) :
    (forward r pkt hdr dec1 info1 hop ingressID outID).2
      ≠ Except.error PErr.macInvalid := by
  unfold forward localDeliver processEgress
  repeat' split
  all_goals simp

theorem forward_macF_none (ia : IA) (hops : List (Nat × (Nat × Nat)))
    (m : Option (InfoField → HopField → List Nat)) (pkt : Packet)
    (hdr : SCIONHdr) (dec1 : Decoded) (info1 : InfoField) (hop : HopField)
    (ingressID outID : Nat) :
    forward ⟨ia, hops, m⟩ pkt hdr dec1 info1 hop ingressID outID
      = forward ⟨ia, hops, none⟩ pkt hdr dec1 info1 hop ingressID outID := rfl

theorem process_cases (r : Router) (pkt : Packet) (i : Nat) (now : Int) :
    (process r pkt i now).1 = pkt
    ∨ (process r pkt i now).2 = Except.error PErr.dstAddrFailed
    ∨ ∃ nh, (process r pkt i now).2 = Except.ok nh := by
  unfold process
  repeat' split
  · exact Or.inl rfl
  · exact Or.inl rfl
  · exact Or.inl rfl
  · exact Or.inl rfl
  · exact Or.inl rfl
  · exact Or.inl rfl
  · exact Or.inl rfl
  · exact forward_cases _ _ _ _ _ _ _ _

/-! ## Byte-string order lemmas -/

theorem bytesLt_irrefl (a : List Nat) : bytesLt a a = false := by
  induction a with
  | nil => rfl
  | cons x xs ih => simp [bytesLt, ih]

theorem bytesLt_trans {a b c : List Nat} (hab : bytesLt a b = true)
    (hbc : bytesLt b c = true) : bytesLt a c = true := by
  induction a generalizing b c with
  | nil => cases b <;> cases c <;> simp_all [bytesLt]
  | cons x xs ih =>
    cases b with
    | nil => simp [bytesLt] at hab
    | cons y ys =>
      cases c with
      | nil => simp [bytesLt] at hbc
      | cons z zs =>
        simp only [bytesLt] at hab hbc ⊢
        by_cases h1 : x < y
        · by_cases h2 : y < z
          · simp [Nat.lt_trans h1 h2]
          · by_cases h3 : z < y
            · rw [if_neg h2, if_pos h3] at hbc
              exact absurd hbc (by simp)
            · have hyz : y = z := by omega
              subst hyz
              simp [h1]
        · by_cases h4 : y < x
          · rw [if_neg h1, if_pos h4] at hab
            exact absurd hab (by simp)
          · have hxy : x = y := by omega
            subst hxy
            rw [if_neg h1, if_neg h4] at hab
            by_cases h2 : x < z
            · simp [h2]
            · by_cases h3 : z < x
              · rw [if_neg h2, if_pos h3] at hbc
                exact absurd hbc (by simp)
              · have hxz : x = z := by omega
                subst hxz
                rw [if_neg h2, if_neg h3] at hbc
                rw [if_neg h2, if_neg h3]
                exact ih hab hbc

theorem bytesLt_conn {a b : List Nat} (hab : bytesLt a b = false)
    (hba : bytesLt b a = false) : a = b := by
  induction a generalizing b with
  | nil =>
    cases b with
    | nil => rfl
    | cons y ys => simp [bytesLt] at hab
  | cons x xs ih =>
    cases b with
    | nil => simp [bytesLt] at hba
    | cons y ys =>
      simp only [bytesLt] at hab hba
      by_cases h1 : x < y <;> by_cases h2 : y < x <;> simp_all
      exact ⟨by omega, ih hab hba⟩

theorem lastEntry_aux {V : Type} (l : List (List Nat × V))
    (best : List Nat × V) :
    ∃ kv, l.foldl
        (fun acc kv =>
          match acc with
          | none => some kv
          | some b => if bytesLt b.1 kv.1 then some kv else some b)
        (some best) = some kv
      ∧ (kv = best ∨ kv ∈ l)
      ∧ bytesLt kv.1 best.1 = false
      ∧ ∀ kv' ∈ l, bytesLt kv.1 kv'.1 = false := by
  induction l generalizing best with
  | nil => exact ⟨best, rfl, Or.inl rfl, bytesLt_irrefl _, by simp⟩
  | cons hd tl ih =>
    by_cases hlt : bytesLt best.1 hd.1 = true
    · obtain ⟨kv, hfold, hmem, hb, hall⟩ := ih hd
      refine ⟨kv, by simpa [hlt] using hfold, ?_, ?_, ?_⟩
      · rcases hmem with h | h
        · exact Or.inr (by simp [h])
        · exact Or.inr (by simp [h])
      · by_contra hc
        rw [Bool.not_eq_false] at hc
        exact absurd (bytesLt_trans hc hlt) (by simp [hb])
      · intro kv' hkv'
        rcases List.mem_cons.mp hkv' with h | h
        · rw [h]; exact hb
        · exact hall kv' h
    · obtain ⟨kv, hfold, hmem, hb, hall⟩ := ih best
      rw [Bool.not_eq_true] at hlt
      refine ⟨kv, by simpa [hlt] using hfold, ?_, hb, ?_⟩
      · rcases hmem with h | h
        · exact Or.inl h
        · exact Or.inr (by simp [h])
      · intro kv' hkv'
        rcases List.mem_cons.mp hkv' with h | h
        · rw [h]
          by_contra hc
          rw [Bool.not_eq_false] at hc
          by_cases hbk : bytesLt best.1 kv.1 = true
          · exact absurd (bytesLt_trans hbk hc) (by simp [hlt])
          · rw [Bool.not_eq_true] at hbk
            rw [bytesLt_conn hb hbk] at hc
            simp [hc] at hlt
        · exact hall kv' h

/-- `lastEntry` returns an entry of the bucket whose key is not below any
other key (bbolt's largest key). -/
theorem lastEntry_spec {V : Type} (l : List (List Nat × V)) (h : l ≠ []) :
    ∃ kv, lastEntry l = some kv ∧ kv ∈ l
      ∧ ∀ kv' ∈ l, bytesLt kv.1 kv'.1 = false := by
  cases l with
  | nil => exact absurd rfl h
  | cons hd tl =>
    obtain ⟨kv, hfold, hmem, hb, hall⟩ := lastEntry_aux tl hd
    refine ⟨kv, hfold, ?_, ?_⟩
    · rcases hmem with h | h
      · simp [h]
      · simp [h]
    · intro kv' hkv'
      rcases List.mem_cons.mp hkv' with h | h
      · rw [h]
        exact hb
      · exact hall kv' h

/-! ## Big-endian encoding lemmas -/

theorem beBytes_mod (w x : Nat) : beBytes w (x % 2 ^ (8 * w)) = beBytes w x := by
  induction w generalizing x with
  | zero => rfl
  | succ w ih =>
    have hE : 2 ^ (8 * (w + 1)) = 2 ^ (8 * w) * 2 ^ 8 := by
      rw [← pow_add]
      ring_nf
    simp only [beBytes, Nat.shiftRight_eq_div_pow]
    have hhead : x % 2 ^ (8 * (w + 1)) / 2 ^ (8 * w) % 256
        = x / 2 ^ (8 * w) % 256 := by
      rw [hE, Nat.mod_mul_right_div_self]
      have h256 : (2 : Nat) ^ 8 = 256 := by norm_num
      rw [h256, Nat.mod_mod_of_dvd _ dvd_rfl]
    have htail : beBytes w (x % 2 ^ (8 * (w + 1))) = beBytes w x := by
      rw [← ih (x % 2 ^ (8 * (w + 1))),
        Nat.mod_mod_of_dvd x (by rw [hE]; exact Dvd.intro _ rfl), ih x]
    rw [hhead, htail]

theorem bytesLt_beBytes (w : Nat) {x y : Nat} (hx : x < 2 ^ (8 * w))
    (hy : y < 2 ^ (8 * w)) :
    bytesLt (beBytes w x) (beBytes w y) = decide (x < y) := by
  induction w generalizing x y with
  | zero =>
    simp only [Nat.mul_zero, pow_zero, Nat.lt_one_iff] at hx hy
    rw [hx, hy]
    rfl
  | succ w ih =>
    have hE : 2 ^ (8 * (w + 1)) = 2 ^ (8 * w) * 256 := by
      rw [show 8 * (w + 1) = 8 * w + 8 by ring, pow_add]
      norm_num
    have hEpos : 0 < 2 ^ (8 * w) := Nat.pos_pow_of_pos _ (by norm_num)
    have hq1 : x / 2 ^ (8 * w) < 256 :=
      Nat.div_lt_of_lt_mul (by rw [← hE]; exact hx)
    have hq2 : y / 2 ^ (8 * w) < 256 :=
      Nat.div_lt_of_lt_mul (by rw [← hE]; exact hy)
    have e1 := Nat.div_add_mod x (2 ^ (8 * w))
    have e2 := Nat.div_add_mod y (2 ^ (8 * w))
    have hr1 : x % 2 ^ (8 * w) < 2 ^ (8 * w) := Nat.mod_lt _ hEpos
    have hr2 : y % 2 ^ (8 * w) < 2 ^ (8 * w) := Nat.mod_lt _ hEpos
    simp only [beBytes, Nat.shiftRight_eq_div_pow, bytesLt,
      Nat.mod_eq_of_lt hq1, Nat.mod_eq_of_lt hq2]
    by_cases h1 : x / 2 ^ (8 * w) < y / 2 ^ (8 * w)
    · have hmul : 2 ^ (8 * w) * (x / 2 ^ (8 * w) + 1)
          ≤ 2 ^ (8 * w) * (y / 2 ^ (8 * w)) :=
        Nat.mul_le_mul_left _ (by omega)
      rw [Nat.mul_succ] at hmul
      have hxy : x < y := by omega
      simp [h1, hxy]
    · by_cases h2 : y / 2 ^ (8 * w) < x / 2 ^ (8 * w)
      · have hmul : 2 ^ (8 * w) * (y / 2 ^ (8 * w) + 1)
            ≤ 2 ^ (8 * w) * (x / 2 ^ (8 * w)) :=
          Nat.mul_le_mul_left _ (by omega)
        rw [Nat.mul_succ] at hmul
        have hxy : y < x := by omega
        simp [h1, h2, Nat.not_lt.mpr (Nat.le_of_lt hxy)]
      · have hq : x / 2 ^ (8 * w) = y / 2 ^ (8 * w) := by omega
        have htails : bytesLt (beBytes w x) (beBytes w y)
            = decide (x % 2 ^ (8 * w) < y % 2 ^ (8 * w)) := by
          rw [← beBytes_mod w x, ← beBytes_mod w y]
          exact ih hr1 hr2
        rw [← hq] at e2
        have hiff : (x % 2 ^ (8 * w) < y % 2 ^ (8 * w)) ↔ x < y := by
          constructor <;> intro <;> omega
        simp only [h1, h2, if_false, htails]
        simp [hiff]

theorem beBytes_inj (w : Nat) {x y : Nat} (hx : x < 2 ^ (8 * w))
    (hy : y < 2 ^ (8 * w)) (h : beBytes w x = beBytes w y) : x = y := by
  have h1 : bytesLt (beBytes w x) (beBytes w y) = false := by
    rw [h]; exact bytesLt_irrefl _
  have h2 : bytesLt (beBytes w y) (beBytes w x) = false := by
    rw [h]; exact bytesLt_irrefl _
  rw [bytesLt_beBytes w hx hy] at h1
  rw [bytesLt_beBytes w hy hx] at h2
  simp at h1 h2
  omega

theorem bytesLt_append {a b : List Nat} (c d : List Nat)
    (hlen : a.length = b.length) :
    bytesLt (a ++ c) (b ++ d)
      = (bytesLt a b || (a == b && bytesLt c d)) := by
  induction a generalizing b with
  | nil =>
    cases b with
    | nil => simp [bytesLt]
    | cons y ys => simp at hlen
  | cons x xs ih =>
    cases b with
    | nil => simp at hlen
    | cons y ys =>
      simp only [List.cons_append, bytesLt]
      by_cases h1 : x < y
      · simp [h1]
      · by_cases h2 : y < x
        · have hne : (x == y) = false := beq_eq_false_iff_ne.mpr (by omega)
          simp [h1, h2, hne]
        · have hxy : x = y := by omega
          subst hxy
          rw [if_neg h1, if_neg h2, if_neg h1, if_neg h2]
          simp only [List.append_eq]
          rw [ih (by simpa using hlen)]
          simp

/-- On in-range version pairs, the bbolt key order of `Base || Serial`
composites is exactly the lexicographic order on `(Base, Serial)`. -/
theorem bytesLt_trcKey {i1 i2 : TRCID} (hb1 : i1.base < 2 ^ 64)
    (hs1 : i1.serial < 2 ^ 64) (hb2 : i2.base < 2 ^ 64)
    (hs2 : i2.serial < 2 ^ 64) :
    bytesLt (trcKey i1) (trcKey i2)
      = decide (i1.base < i2.base
          ∨ (i1.base = i2.base ∧ i1.serial < i2.serial)) := by
  have h64 : (2 : Nat) ^ 64 = 2 ^ (8 * 8) := by norm_num
  rw [h64] at hb1 hs1 hb2 hs2
  unfold trcKey
  rw [bytesLt_append _ _ (by simp [beBytes]),
    bytesLt_beBytes 8 hb1 hb2, bytesLt_beBytes 8 hs1 hs2]
  by_cases hbb : i1.base = i2.base
  · simp [hbb, beq_self_eq_true]
  · have hne : ¬ beBytes 8 i1.base = beBytes 8 i2.base := fun h =>
      hbb (beBytes_inj 8 hb1 hb2 h)
    by_cases hlt : i1.base < i2.base <;> simp_all

/-! ## C4: TRC lookup by identifier -/

/-- C4: `SignedTRC` fails with the unsupported-query error when exactly
one of Base and Serial is the `Latest` sentinel; with both `Latest` it
returns the record under the lexicographically largest 16-byte key of the
ISD bucket, which is the record with the highest `(Base, Serial)` pair;
and a missing ISD bucket or record yields the empty TRC without error. -/
theorem signedTRC_lookup_spec (db : TrustDB) (id : TRCID) :
    (isLatestVer id.base ≠ isLatestVer id.serial →
      signedTRCLookup db id = Except.error "unsupported TRC ID for query")
    ∧ (isLatestVer id.base = isLatestVer id.serial →
        lookupA db.trcs (toString id.isd) = none →
        signedTRCLookup db id = Except.ok emptySignedTRC)
    ∧ (∀ bucket, lookupA db.trcs (toString id.isd) = some bucket →
        isLatestVer id.base = true → isLatestVer id.serial = true →
        (bucket = [] → signedTRCLookup db id = Except.ok emptySignedTRC)
        ∧ (bucket ≠ [] → wfBucket bucket →
            ∃ t, signedTRCLookup db id = Except.ok t
              ∧ (∃ k, (k, t) ∈ bucket)
              ∧ ∀ e ∈ bucket,
                  e.2.id.base < t.id.base
                  ∨ (e.2.id.base = t.id.base ∧ e.2.id.serial ≤ t.id.serial)))
    ∧ (isLatestVer id.base = false → isLatestVer id.serial = false →
        ∀ bucket, lookupA db.trcs (toString id.isd) = some bucket →
        lookupA bucket (trcKey id) = none →
        signedTRCLookup db id = Except.ok emptySignedTRC) := by
  refine ⟨?_, ?_, ?_, ?_⟩
  · intro h
    simp [signedTRCLookup, h]
  · intro h hnone
    simp [signedTRCLookup, h, hnone]
  · intro bucket hbucket hbase hserial
    have hcond : ¬ isLatestVer id.base ≠ isLatestVer id.serial := by
      rw [hbase, hserial]
      simp
    constructor
    · intro hempty
      subst hempty
      simp [signedTRCLookup, hcond, hbucket, hbase, hserial, lastEntry]
    · intro hne hwf
      obtain ⟨kv, hlast, hmem, hmax⟩ := lastEntry_spec bucket hne
      refine ⟨kv.2, ?_, ⟨kv.1, hmem⟩, ?_⟩
      · simp [signedTRCLookup, hcond, hbucket, hbase, hserial, hlast]
      · intro e he
        have h1 := hmax e he
        obtain ⟨hk1, hb1, hs1⟩ := hwf kv hmem
        obtain ⟨hk2, hb2, hs2⟩ := hwf e he
        rw [hk1, hk2, bytesLt_trcKey hb1 hs1 hb2 hs2] at h1
        simp at h1
        omega
  · intro hb hs bucket hbucket hnone
    have hcond : ¬ isLatestVer id.base ≠ isLatestVer id.serial := by
      rw [hb, hs]
      simp
    simp [signedTRCLookup, hcond, hbucket, hb, hs, hnone]

/-- Witness for C4 at a concrete store: a half-wildcard query errors, a
missing ISD and a missing record yield the empty TRC, and the
latest-latest query returns the stored record (1,1,2) — by the theorem's
maximality conclusion it must be the highest-versioned entry. -/
theorem signedTRC_lookup_spec_witness :
    signedTRCLookup sampleTRCDB ⟨1, 0, 5⟩
      = Except.error "unsupported TRC ID for query"
    ∧ signedTRCLookup sampleTRCDB ⟨2, 0, 0⟩ = Except.ok emptySignedTRC
    ∧ signedTRCLookup sampleTRCDB ⟨1, 2, 3⟩ = Except.ok emptySignedTRC
    ∧ signedTRCLookup sampleTRCDB ⟨1, 0, 0⟩
      = Except.ok (sampleSignedTRC 1 2) := by
  refine ⟨(signedTRC_lookup_spec sampleTRCDB ⟨1, 0, 5⟩).1 (by decide),
    (signedTRC_lookup_spec sampleTRCDB ⟨2, 0, 0⟩).2.1 (by decide) (by decide),
    (signedTRC_lookup_spec sampleTRCDB ⟨1, 2, 3⟩).2.2.2 (by decide) (by decide)
      sampleBucket (by decide) (by decide), ?_⟩
  obtain ⟨t, hlook, ⟨k, hk⟩, hmax⟩ :=
    ((signedTRC_lookup_spec sampleTRCDB ⟨1, 0, 0⟩).2.2.1 sampleBucket
      (by decide) (by decide) (by decide)).2 (by decide) (by decide)
  simp only [sampleBucket, List.mem_cons, List.mem_singleton,
    Prod.mk.injEq] at hk
  rcases hk with ⟨hk1, ht⟩ | ⟨hk1, ht⟩ | hfalse
  · have hcontra := hmax (trcKey ⟨1, 1, 2⟩, sampleSignedTRC 1 2)
      (by simp [sampleBucket])
    rw [ht] at hcontra
    simp [sampleSignedTRC] at hcontra
  · rw [ht] at hlook
    exact hlook
  · exact absurd hfalse (by simp)

/-! ## C5: which chains a query returns -/

/-- C5 amended: `Chains(q)` returns exactly the stored chains whose bucket
name (the IA string of the AS certificate) *extends the query IA's string
as a string prefix* (every bucket when the query IA is zero), whose
composite key `SubjectKeyId || chain-hash` starts with `q.SubjectKeyId`,
and whose AS certificate satisfies the validity filter.  The IA condition
is a string-prefix match, not an equality of IAs. -/
theorem chains_query_spec (db : TrustDB) (q : ChainQuery) (ch : Cert × Cert) :
    ch ∈ chainsQuery db q
      ↔ ∃ bn k, (bn, k, ch) ∈ storedChains db
          ∧ strHasPrefix bn (if q.ia.isZero then "" else iaString q.ia) = true
          ∧ hasPrefix k q.subjectKeyID = true
          ∧ chainValidityOK ch.1 q.validity = true := by
  simp only [chainsQuery, storedChains]
  constructor
  · intro h
    rw [List.mem_flatMap] at h
    obtain ⟨b, hb, hmem⟩ := h
    rw [List.mem_filter] at hb
    obtain ⟨hbdb, hbpre⟩ := hb
    rw [List.mem_filter] at hmem
    obtain ⟨hmem2, hval⟩ := hmem
    rw [List.mem_map] at hmem2
    obtain ⟨e, he, hech⟩ := hmem2
    rw [List.mem_filter] at he
    obtain ⟨heb, hkey⟩ := he
    refine ⟨b.1, e.1, ?_, hbpre, hkey, hval⟩
    rw [List.mem_flatMap]
    exact ⟨b, hbdb, List.mem_map.mpr ⟨e, heb, by rw [hech]⟩⟩
  · rintro ⟨bn, k, hmem, hpre, hkey, hval⟩
    rw [List.mem_flatMap] at hmem
    obtain ⟨b, hbdb, hmm⟩ := hmem
    rw [List.mem_map] at hmm
    obtain ⟨e, he, heq⟩ := hmm
    obtain ⟨h1, h2, h3⟩ : b.1 = bn ∧ e.1 = k ∧ e.2 = ch := by
      simpa [Prod.ext_iff] using heq
    rw [List.mem_flatMap]
    refine ⟨b, List.mem_filter.mpr ⟨hbdb, by rw [h1]; exact hpre⟩, ?_⟩
    rw [List.mem_filter]
    exact ⟨List.mem_map.mpr
      ⟨e, List.mem_filter.mpr ⟨he, by rw [h2]; exact hkey⟩, h3⟩, hval⟩

/-- Witness for C5's amended theorem at a concrete store: the stored chain
is returned for a query naming its IA and subject-key prefix. -/
theorem chains_query_spec_witness :
    (sampleChainCert ⟨1, 11⟩ [4], sampleChainCert ⟨1, 11⟩ [5])
      ∈ chainsQuery sampleChainDB ⟨⟨1, 11⟩, [4], ⟨0, 0⟩⟩ :=
  (chains_query_spec sampleChainDB ⟨⟨1, 11⟩, [4], ⟨0, 0⟩⟩
    (sampleChainCert ⟨1, 11⟩ [4], sampleChainCert ⟨1, 11⟩ [5])).mpr
    ⟨"1-11", [4, 7], by decide, by decide, by decide, by decide⟩

/-- C5 counterexample: the IA filter is a byte-prefix scan over IA
strings, so a query for IA `1-1` (non-zero) also returns the chain stored
under IA `1-11` — the returned chain's IA does not match the query IA,
refuting the claimed equivalence. -/
theorem chains_query_ia_counterexample :
    (sampleChainCert ⟨1, 11⟩ [4], sampleChainCert ⟨1, 11⟩ [5])
      ∈ chainsQuery sampleChainDB ⟨⟨1, 1⟩, [], ⟨0, 0⟩⟩
    ∧ (⟨1, 1⟩ : IA).isZero = false
    ∧ (sampleChainCert ⟨1, 11⟩ [4]).subjectIA ≠ ⟨1, 1⟩ := by
  refine ⟨by decide, by decide, by decide⟩

/-! ## Path-codec lemmas -/

theorem metaDecode_currHF_lt {b : List Nat} {m : MetaHdr}
    (h : metaDecode b = some m) : m.currHF < 64 := by
  unfold metaDecode at h
  match b, h with
  | b0 :: b1 :: b2 :: b3 :: rest, h =>
    injection h with h
    rw [← h]
    exact Nat.mod_lt _ (by norm_num)

theorem baseDecode_meta {b : List Nat} {m : MetaHdr} {nI nH : Nat}
    (h : baseDecode b = some (m, nI, nH)) : metaDecode b = some m := by
  unfold baseDecode at h
  cases hm : metaDecode b with
  | none => rw [hm] at h; exact absurd h (by simp)
  | some m' =>
    simp only [hm] at h
    repeat' split at h
    all_goals
      first
      | (injection h with h2
         rw [Prod.ext_iff] at h2
         exact congrArg some h2.1)
      | injection h

theorem decodeFromBytes_facts {b : List Nat} {dec : Decoded}
    (h : decodeFromBytes b = some dec) :
    dec.infoFields.length = dec.numINF
    ∧ dec.hopFields.length = dec.numHops
    ∧ dec.meta.currHF < 64
    ∧ 4 + 8 * dec.numINF + 12 * dec.numHops ≤ b.length := by
  unfold decodeFromBytes at h
  cases hb : baseDecode b with
  | none => rw [hb] at h; exact absurd h (by simp)
  | some t =>
    obtain ⟨m, nI, nH⟩ := t
    rw [hb] at h
    simp only at h
    split at h
    · exact absurd h (by simp)
    · rename_i hlen
      injection h with h
      rw [← h]
      refine ⟨by simp, by simp, metaDecode_currHF_lt (baseDecode_meta hb), ?_⟩
      show 4 + 8 * nI + 12 * nH ≤ b.length
      omega

theorem flatten_map_length {α β : Type} (f : α → List β) (c : Nat)
    (hf : ∀ a, (f a).length = c) (l : List α) :
    ((l.map f).flatten).length = c * l.length := by
  induction l with
  | nil => simp
  | cons hd tl ih =>
    simp [ih, hf hd]
    ring

theorem serializeBytes_length (d : Decoded) :
    (serializeBytes d).length
      = 4 + 8 * d.infoFields.length + 12 * d.hopFields.length := by
  unfold serializeBytes
  rw [List.length_append, List.length_append,
    flatten_map_length infoSerialize 8
      (fun i => by simp [infoSerialize, beBytes]),
    flatten_map_length hopSerialize 12
      (fun h => by simp [hopSerialize, beBytes])]
  simp [metaSerialize, beBytes]

theorem serializeTo_some {d : Decoded} {b : List Nat} (h : d.len ≤ b.length) :
    serializeTo d b
      = some (serializeBytes d ++ b.drop (serializeBytes d).length) := by
  unfold serializeTo
  rw [if_neg (Nat.not_lt.mpr h)]

theorem ingressPath_fields (dec : Decoded) (ingressID : Nat) :
    (ingressPath dec ingressID).meta = dec.meta
    ∧ (ingressPath dec ingressID).numINF = dec.numINF
    ∧ (ingressPath dec ingressID).numHops = dec.numHops
    ∧ (ingressPath dec ingressID).infoFields.length = dec.infoFields.length
    ∧ (ingressPath dec ingressID).hopFields = dec.hopFields := by
  unfold ingressPath
  split <;> simp

theorem egressPath_fields (dec1 : Decoded) (info1 : InfoField)
    (hop : HopField) :
    (egressPath dec1 info1 hop).meta.currHF = (dec1.meta.currHF + 1) % 256
    ∧ (egressPath dec1 info1 hop).meta.currINF = dec1.meta.currINF
    ∧ (egressPath dec1 info1 hop).numINF = dec1.numINF
    ∧ (egressPath dec1 info1 hop).numHops = dec1.numHops
    ∧ (egressPath dec1 info1 hop).infoFields.length
        = dec1.infoFields.length
    ∧ (egressPath dec1 info1 hop).hopFields = dec1.hopFields := by
  unfold egressPath
  split <;> simp

/-! ## Reduction of `process` to its forwarding step -/

theorem process_reduces_to_forward (r : Router) (pkt : Packet)
    (ingressID : Nat) (now : Int) (hdr : SCIONHdr) (dec : Decoded)
    (hh : pkt.hdr = some hdr)
    (hraw : hdr.isRawSCION = true)
    (hdec : decodeFromBytes pkt.rawPath = some dec)
    (hbounds : ¬ (dec.infoFields.length ≤ dec.meta.currINF
      ∨ dec.hopFields.length ≤ dec.meta.currHF))
    (hexp : ¬ expiryNs (resolvedInfo dec) (resolvedHop dec) < now)
    (hing : ¬ (ingressID ≠ 0 ∧ ingressID ≠ inIfID dec))
    (hmac : macCheck r (ingressInfo dec ingressID) (resolvedHop dec) = true) :
    process r pkt ingressID now
      = forward r pkt hdr (ingressPath dec ingressID)
          (ingressInfo dec ingressID) (resolvedHop dec) ingressID
          (outIfID dec) := by
  unfold process
  rw [hh]
  simp only [hdec, hraw, not_true, if_neg (by simp : ¬ (true = false)),
    Bool.not_eq_true]
  rw [if_neg (by simp)]
  rw [if_neg hbounds, if_neg hexp, if_neg hing, if_neg (by simp [hmac])]

theorem listGetD_set_self {α : Type} (l : List α) (i : Nat) (a d : α)
    (h : i < l.length) : (l.set i a).getD i d = a := by
  induction l generalizing i with
  | nil => simp at h
  | cons hd tl ih =>
    cases i with
    | zero => rfl
    | succ j =>
      simp only [List.set, List.getD, List.getElem?_cons_succ]
      exact ih j (by simpa using h)

/-! ## C6: egress handling -/

/-- C6: when every check passes (header decodes, path decodes, indices in
bounds, hop not expired, ingress matches when non-zero, MAC verifies) and
the resolved egress is non-zero, `Process` returns
`UnknownExternalInterface` if the interface table has no entry; otherwise
the mutated path carries `CurrHF` incremented by exactly one, its SegID is
XOR-updated with the first two MAC bytes when `ConsDir` holds, the call
fails with `PathOverflow` when the incremented `CurrHF` reaches `NumHops`,
and otherwise the mutated path is serialised back into the packet buffer
and the next hop is the interface table's entry. -/
theorem process_egress_advance (r : Router) (pkt : Packet) (ingressID : Nat)
    (now : Int) (hdr : SCIONHdr) (dec : Decoded)
    (hh : pkt.hdr = some hdr)
    (hraw : hdr.isRawSCION = true)
    (hdec : decodeFromBytes pkt.rawPath = some dec)
    (hbounds : ¬ (dec.infoFields.length ≤ dec.meta.currINF
      ∨ dec.hopFields.length ≤ dec.meta.currHF))
    (hexp : ¬ expiryNs (resolvedInfo dec) (resolvedHop dec) < now)
    (hing : ¬ (ingressID ≠ 0 ∧ ingressID ≠ inIfID dec))
    (hmac : macCheck r (ingressInfo dec ingressID) (resolvedHop dec) = true)
    (hout : outIfID dec ≠ 0) :
    (lookupA r.externalNextHops (outIfID dec) = none →
      process r pkt ingressID now
        = (pkt, Except.error PErr.unknownExternalInterface))
    ∧ (∀ nh, lookupA r.externalNextHops (outIfID dec) = some nh →
        (egressPath (ingressPath dec ingressID) (ingressInfo dec ingressID)
            (resolvedHop dec)).meta.currHF = dec.meta.currHF + 1
        ∧ ((resolvedInfo dec).consDir = true →
            (egressPath (ingressPath dec ingressID)
                (ingressInfo dec ingressID) (resolvedHop dec)).infoFields.getD
                dec.meta.currINF ⟨false, false, 0, 0⟩
              = updateSegID (ingressInfo dec ingressID) (resolvedHop dec).mac)
        ∧ (dec.numHops ≤ dec.meta.currHF + 1 →
            process r pkt ingressID now
              = (pkt, Except.error PErr.pathOverflow))
        ∧ (dec.meta.currHF + 1 < dec.numHops →
            ∃ raw3,
              serializeTo (egressPath (ingressPath dec ingressID)
                  (ingressInfo dec ingressID) (resolvedHop dec)) pkt.rawPath
                = some raw3
              ∧ process r pkt ingressID now
                  = ({ pkt with rawPath := raw3 }, Except.ok ⟨nh⟩))) := by
  have hred := process_reduces_to_forward r pkt ingressID now hdr dec hh hraw
    hdec hbounds hexp hing hmac
  obtain ⟨hf1, hf2, hcurrHF, hlen⟩ := decodeFromBytes_facts hdec
  obtain ⟨hip_meta, hip_nI, hip_nH, hip_il, hip_hf⟩ :=
    ingressPath_fields dec ingressID
  obtain ⟨hep_chf, hep_inf, hep_nI, hep_nH, hep_il, hep_hf⟩ :=
    egressPath_fields (ingressPath dec ingressID) (ingressInfo dec ingressID)
      (resolvedHop dec)
  have hfwd_cond : ¬ (ingressID ≠ 0 ∧ outIfID dec = 0) := fun hcc => hout hcc.2
  have hchf : (egressPath (ingressPath dec ingressID)
      (ingressInfo dec ingressID) (resolvedHop dec)).meta.currHF
      = dec.meta.currHF + 1 := by
    rw [hep_chf, hip_meta]
    exact Nat.mod_eq_of_lt (by omega)
  have hcond3 : (egressPath (ingressPath dec ingressID)
      (ingressInfo dec ingressID) (resolvedHop dec)).numHops
      = dec.numHops := by rw [hep_nH, hip_nH]
  constructor
  · intro hnone
    rw [hred]
    unfold forward
    rw [if_neg hfwd_cond, if_neg hout, hnone]
  · intro nh hnh
    have hfwd : forward r pkt hdr (ingressPath dec ingressID)
        (ingressInfo dec ingressID) (resolvedHop dec) ingressID (outIfID dec)
        = processEgress pkt (ingressPath dec ingressID)
            (ingressInfo dec ingressID) (resolvedHop dec) nh := by
      unfold forward
      rw [if_neg hfwd_cond, if_neg hout, hnh]
    refine ⟨hchf, ?_, ?_, ?_⟩
    · intro hcd
      have hcd1 : (ingressInfo dec ingressID).consDir = true := by
        unfold ingressInfo
        split
        · simp [updateSegID, hcd]
        · exact hcd
      unfold egressPath
      rw [if_pos hcd1]
      simp only
      rw [hip_meta]
      exact listGetD_set_self _ _ _ _ (by rw [hip_il]; omega)
    · intro hover
      rw [hred, hfwd]
      unfold processEgress
      rw [if_pos (by rw [hcond3, hchf]; exact hover)]
    · intro hok
      have hlen3 : (egressPath (ingressPath dec ingressID)
          (ingressInfo dec ingressID) (resolvedHop dec)).len
          ≤ pkt.rawPath.length := by
        unfold Decoded.len
        rw [hcond3, hep_nI, hip_nI]
        omega
      refine ⟨_, serializeTo_some hlen3, ?_⟩
      rw [hred, hfwd]
      unfold processEgress
      rw [if_neg (by rw [hcond3, hchf]; omega), serializeTo_some hlen3]

/-- Witness for C6 at the concrete transit packet: interface 2 maps to
`(102, 50000)` and the call succeeds with that next hop. -/
theorem process_egress_advance_witness :
    (process tRouter tPacket 1 0).2 = Except.ok ⟨(102, 50000)⟩ := by
  obtain ⟨-, -, -, hrun⟩ :=
    (process_egress_advance tRouter tPacket 1 0 ⟨⟨1, 2⟩, some 7, true⟩
      tDecoded rfl rfl (by decide) (by decide) (by decide) (by decide)
      (by decide) (by decide)).2 (102, 50000) (by decide)
  obtain ⟨raw3, -, hp⟩ := hrun (by decide)
  rw [hp]

/-! ## C1: packet bytes on error -/

/-- C1 amended: if `Process` returns an error other than the
destination-address resolution failure of the local-delivery branch, the
packet is bit-identical to the input.  (On that one error the path bytes
have already been rewritten: the serialisation happens before `DstAddr()`
is consulted.) -/
theorem process_error_no_mutation (r : Router) (pkt : Packet)
    (ingressID : Nat) (now : Int) (e : PErr)
    (he : (process r pkt ingressID now).2 = Except.error e)
    (hne : e ≠ PErr.dstAddrFailed) :
    (process r pkt ingressID now).1 = pkt := by
  rcases process_cases r pkt ingressID now with h | h | ⟨nh, h⟩
  · exact h
  · rw [he] at h
    injection h with h
    exact absurd h hne
  · rw [he] at h
    simp at h

/-- Witness for C1's amended theorem: a packet that fails to decode is
returned unchanged. -/
theorem process_error_no_mutation_witness :
    (process cRouter ⟨none, []⟩ 0 0).2 = Except.error PErr.decodeFailed
    ∧ (process cRouter ⟨none, []⟩ 0 0).1 = (⟨none, []⟩ : Packet) :=
  ⟨rfl, process_error_no_mutation cRouter ⟨none, []⟩ 0 0 PErr.decodeFailed rfl
    (by decide)⟩

/-- C1 counterexample: a local-delivery packet (resolved egress 0,
destination IA local) travelling against construction direction whose
destination host address fails to parse — `Process` returns an error, yet
the SegID update has been serialised into the buffer, so the packet is not
bit-identical to the input. -/
theorem process_error_mutation_counterexample :
    (process cRouter cPacket 1 0).2 = Except.error PErr.dstAddrFailed
    ∧ (process cRouter cPacket 1 0).1 ≠ cPacket := by
  refine ⟨rfl, ?_⟩
  decide

/-! ## C10: nil MAC factory skips MAC verification -/

/-- C10: with a nil `MacFactory` the router never reports `MACInvalid`,
and it behaves exactly like a router whose MAC oracle accepts every hop
field — packets with arbitrary MACs are processed as if their MACs were
valid. -/
theorem process_nil_mac_factory (ia : IA) (hops : List (Nat × (Nat × Nat)))
    (pkt : Packet) (i : Nat) (now : Int) :
    (process ⟨ia, hops, none⟩ pkt i now).2 ≠ Except.error PErr.macInvalid
    ∧ process ⟨ia, hops, some (fun _ h => h.mac)⟩ pkt i now
        = process ⟨ia, hops, none⟩ pkt i now := by
  constructor
  · unfold process
    repeat' split
    all_goals try simp
    · rename_i h
      simp [macCheck] at h
    · exact forward_no_macInvalid _ _ _ _ _ _ _ _
  · unfold process
    simp only [macCheck, beq_self_eq_true, forward_macF_none]

end Cion
